import Mathlib

/-!
Shallow embedding of `registry/storage/blobserver.go` from the
`ndeloof/distribution` repository: the blob-delivery core (`ServeBlob`) and the
content-encoding negotiator (`ServeBlobContent`) of `blobServer`.

Modelling conventions:
* Go machine integers (`int64` sizes) become `Int`.
* Fallible Go calls (`error` returns) become `Except Err _`.
* The injected collaborators (`statter`, `driver`, `pathFn`, `newFileReader`)
  are oracle functions stored in the `BlobServer` structure.
* The HTTP response writer's header map becomes a function `String → String`
  where `""` means "unset", matching Go's `Header().Get` returning `""`.
* Every externally observable call (statter stat, driver stat, URLFor, file
  reader open/close, redirect emission, `http.ServeContent`) is recorded as an
  `Event` in an execution trace returned alongside the result, so that ordering
  and resource-release claims can be stated.
-/

/-- A digest is an algorithm-tagged hash string; `go-digest`'s `Digest` is a
string type and `dgst.String()` is the string itself. -/
abbrev Digest := String

/-- `distribution.Descriptor`: the fields used by the blob server. -/
structure Descriptor where
  mediaType : String
  size : Int
  digest : Digest
  deriving DecidableEq

/-- Errors distinguished by the blob server's control flow:
`driver.PathNotFoundError`, `driver.ErrUnsupportedMethod` (a struct type,
matched by the `switch err.(type)` in `ServeBlob`), and everything else.
`invalidDigest` stands for the error a path function returns on malformed
digests; `other n` is an arbitrary further storage/backend error. -/
inductive Err where
  | pathNotFound
  | unsupportedMethod
  | invalidDigest
  | other (n : Nat)
  deriving DecidableEq

/-- The part of `driver.FileInfo` the negotiator reads: `stat.Size()`. -/
structure FileInfo where
  size : Int
  deriving DecidableEq

/-- One entry of the parsed `Accept-Encoding` list: `header.AcceptSpec` has a
token `Value` and a quality `Q`.  The quality is a float64 in Go; it is
modelled as a rational, which preserves the ordering comparisons that drive
the algorithm. -/
structure AcceptSpec where
  value : String
  q : Rat
  deriving DecidableEq

/-- Observable actions of one execution, in order of occurrence. -/
inductive Event where
  | statterStat (dgst : Digest)
  | driverStat (path : String)
  | driverURLFor (path : String) (method : String)
  | fileReaderOpenOk (path : String)
  | fileReaderOpenErr (path : String)
  | fileReaderClose (path : String)
  | httpRedirect (url : String)
  | serveContent (name : String)
  deriving DecidableEq

/-- The `blobServer` struct: the driver, statter and path function are the
injected collaborators, `redirect` the configuration flag.  `newFileReader`
models the range-stream-adapter constructor (external to the fragment), which
either succeeds or fails. -/
structure BlobServer where
  redirect : Bool
  pathFn : Digest → Except Err String
  statterStat : Digest → Except Err Descriptor
  driverStat : String → Except Err FileInfo
  driverURLFor : String → String → Except Err String
  newFileReader : String → Int → Except Err Unit

/-- The request data the blob server reads: the HTTP method, the value of the
`Docker-Transport-Compression` request header (`""` when absent), and the raw
`Accept-Encoding` entries in original header order, before preference
sorting. -/
structure Request where
  method : String
  transportCompression : String
  acceptRaw : List AcceptSpec

/-- Response headers: `""` models an unset header, as in Go's `Header().Get`. -/
abbrev Headers := String → String

/-- `w.Header().Set(k, v)`. -/
def hSet (h : Headers) (k v : String) : Headers :=
  fun k2 => if k2 = k then v else h k2

/-- `blobCacheControlMaxAge = 365 * 24 * time.Hour`, in whole seconds. -/
def maxAgeSeconds : Nat := 365 * 24 * 60 * 60

/-- The `Cache-Control` value `fmt.Sprintf("max-age=%.f", ...Seconds())`. -/
def cacheControlValue : String := "max-age=" ++ toString maxAgeSeconds

/-! ### Go `path/filepath` on a slash-separated system: `Clean`, `Dir`, `Join`

`filepath.Clean` is embedded by its component semantics: split on the
separator, drop empty and `.` components, resolve `..` against a stack
(dropping it at the root, keeping it when the path is relative and the stack
holds only `..`s), and re-render, with `.` for an empty relative result and
`/` for an empty rooted one. -/

/-- Split a character list on `/`; always returns at least one (possibly
empty) component, like the separator occurrences delimit `n+1` fields. -/
def splitSlash : List Char → List (List Char)
  | [] => [[]]
  | c :: cs =>
    match splitSlash cs with
    | [] => [[]]
    | y :: ys => if c = '/' then [] :: y :: ys else (c :: y) :: ys

/-- The `..` component. -/
def dd : List Char := ['.', '.']

/-- One step of `Clean`'s component processing: `stack` holds the output
components most recent first. -/
def cleanPush (rooted : Bool) (stack : List (List Char)) (c : List Char) :
    List (List Char) :=
  if c = [] ∨ c = ['.'] then stack
  else if c = dd then
    match stack with
    | [] => if rooted then [] else [dd]
    | top :: rest => if top = dd then dd :: top :: rest else rest
  else c :: stack

/-- Interleave `/` between components. -/
def interSlash : List (List Char) → List Char
  | [] => []
  | [c] => c
  | c :: c2 :: cs => c ++ '/' :: interSlash (c2 :: cs)

/-- Render a cleaned stack back to a path (stack is most-recent-first). -/
def render (rooted : Bool) (stack : List (List Char)) : List Char :=
  let body := interSlash stack.reverse
  if rooted then (if body = [] then ['/'] else '/' :: body)
  else (if body = [] then ['.'] else body)

/-- `filepath.Clean` on character lists. -/
def cleanL (l : List Char) : List Char :=
  if l = [] then ['.']
  else
    let rooted := l.head? = some '/'
    render rooted ((splitSlash l).foldl (cleanPush rooted) [])

/-- `filepath.Clean`. -/
def clean (s : String) : String := ⟨cleanL s.data⟩

/-- The prefix of a path up to and including its last separator
(`path[:i+1]` with `i` the index found by `Dir`'s backward scan); empty when
the path has no separator. -/
def dropLastComponent (l : List Char) : List Char :=
  ((l.reverse.dropWhile (fun c => c ≠ '/')).reverse)

/-- `filepath.Dir` on character lists: `Clean` of the prefix up to and
including the last separator (`Clean ""` is `"."`, covering the
no-separator case). -/
def dirL (l : List Char) : List Char := cleanL (dropLastComponent l)

/-- `filepath.Dir`. -/
def dir (s : String) : String := ⟨dirL s.data⟩

/-- `filepath.Join` at the two-argument call sites used by the negotiator:
`Clean` of the elements joined by the separator, starting from the first
non-empty element, `""` when both are empty. -/
def join2 (a b : String) : String :=
  if a = "" then (if b = "" then "" else clean b)
  else clean (a ++ "/" ++ b)

/-! ### The Accept-Encoding parse, modelled from the spec

`header.ParseAccept` comes from the external `github.com/golang/gddo` module,
whose source is not part of this repository fragment. -/

/-- Stable descending insertion by quality: the sort below processes entries
from the right, so the inserted element comes from earlier in the original
order than everything already sorted and must be placed before every element
of at most its quality — equal qualities then keep original order. -/
def insertByQ (a : AcceptSpec) : List AcceptSpec → List AcceptSpec
  | [] => [a]
  | b :: rest => if b.q ≤ a.q then a :: b :: rest else b :: insertByQ a rest

/-- Modelled from the spec: `header.ParseAccept` (external `gddo` module) is
described as producing the accepted-encoding entries "ordered by descending
preference as parsed; ties broken by original order (stable)"; an absent or
empty header parses to the empty list.  Modelled as a stable insertion sort
of the raw entries by descending quality. -/
def parseAccept : List AcceptSpec → List AcceptSpec
  | [] => []
  | a :: rest => insertByQ a (parseAccept rest)

/-! ### The negotiator: `ServeBlobContent` -/

/-- The loop body of `ServeBlobContent` over the parsed accepted encodings.
`path` is the Go `path` variable, which the loop reassigns to
`filepath.Join(filepath.Dir(path), "data."+enc.Value)` before each stat, so
the reassigned value is carried into the next iteration.  Returns the
`(found, err)` pair, the response headers, and the events of the loop. -/
def negotiateLoop (bs : BlobServer) (dgst : Digest) (h : Headers) :
    String → List AcceptSpec → (Bool × Option Err) × Headers × List Event
  | _, [] => ((false, none), h, [])
  | path, enc :: rest =>
    let path2 := join2 (dir path) ("data." ++ enc.value)
    match bs.driverStat path2 with
    | .error e =>
      if e = Err.pathNotFound then
        ((negotiateLoop bs dgst h path2 rest).1,
         (negotiateLoop bs dgst h path2 rest).2.1,
         Event.driverStat path2 :: (negotiateLoop bs dgst h path2 rest).2.2)
      else ((false, some e), h, [Event.driverStat path2])
    | .ok st =>
      match bs.newFileReader path2 st.size with
      | .error e =>
        ((false, some e), h,
          [Event.driverStat path2, Event.fileReaderOpenErr path2])
      | .ok _ =>
        let h2 := hSet h "ETag" dgst
        let h3 := hSet h2 "Cache-Control" cacheControlValue
        let h4 := hSet h3 "Content-Type" "application/octet-stream"
        let h5 := hSet h4 "Content-Length" (toString st.size)
        let h6 := hSet h5 "Content-Encoding" enc.value
        ((true, none), h6,
          [Event.driverStat path2, Event.fileReaderOpenOk path2,
           Event.serveContent dgst, Event.fileReaderClose path2])

/-- `ServeBlobContent`: resolve the path of the caller-supplied digest, parse
the accepted encodings, and run the negotiation loop.  Returns
`(found, err)`, the headers, and the trace. -/
def serveBlobContent (bs : BlobServer) (r : Request) (h0 : Headers)
    (dgst : Digest) : (Bool × Option Err) × Headers × List Event :=
  match bs.pathFn dgst with
  | .error e => ((false, some e), h0, [])
  | .ok path => negotiateLoop bs dgst h0 path (parseAccept r.acceptRaw)

/-! ### The delivery engine: `ServeBlob` -/

/-- The `if w.Header().Get(k) == "" then w.Header().Set(k, v)` pattern used
three times by `ServeBlob`. -/
def setIfAbsent (h : Headers) (k v : String) : Headers :=
  if h k = "" then hSet h k v else h

/-- The direct-streaming tail of `ServeBlob`: open the file reader (closed by
`defer` before return), set `ETag` (quoted), `Cache-Control`, and — only when
not already set — `Docker-Content-Digest`, `Content-Type`, `Content-Length`,
then serve via `http.ServeContent` with the descriptor digest as the
identity. -/
def streamBlob (bs : BlobServer) (h : Headers) (desc : Descriptor)
    (path : String) : Option Err × Headers × List Event :=
  match bs.newFileReader path desc.size with
  | .error e => (some e, h, [Event.fileReaderOpenErr path])
  | .ok _ =>
    let h1 := hSet h "ETag" ("\"" ++ desc.digest ++ "\"")
    let h2 := hSet h1 "Cache-Control" cacheControlValue
    let h3 := setIfAbsent h2 "Docker-Content-Digest" desc.digest
    let h4 := setIfAbsent h3 "Content-Type" desc.mediaType
    let h5 := setIfAbsent h4 "Content-Length" (toString desc.size)
    (none, h5,
      [Event.fileReaderOpenOk path, Event.serveContent desc.digest,
       Event.fileReaderClose path])

/-- The canonical part of `ServeBlob`, after the optional negotiation: stat
the descriptor for the caller's digest, resolve the path of the descriptor's
digest, attempt a redirect when enabled (`nil` error → redirect and return,
`driver.ErrUnsupportedMethod` → fall through, any other error → return it),
otherwise stream directly. -/
def serveBlobMain (bs : BlobServer) (r : Request) (h : Headers)
    (dgst : Digest) : Option Err × Headers × List Event :=
  match bs.statterStat dgst with
  | .error e => (some e, h, [Event.statterStat dgst])
  | .ok desc =>
    match bs.pathFn desc.digest with
    | .error e => (some e, h, [Event.statterStat dgst])
    | .ok path =>
      if bs.redirect then
        match bs.driverURLFor path r.method with
        | .ok url =>
          (none, h,
            [Event.statterStat dgst, Event.driverURLFor path r.method,
             Event.httpRedirect url])
        | .error e =>
          if e = Err.unsupportedMethod then
            ((streamBlob bs h desc path).1, (streamBlob bs h desc path).2.1,
              Event.statterStat dgst :: Event.driverURLFor path r.method ::
                (streamBlob bs h desc path).2.2)
          else
            (some e, h,
              [Event.statterStat dgst, Event.driverURLFor path r.method])
      else
        ((streamBlob bs h desc path).1, (streamBlob bs h desc path).2.1,
          Event.statterStat dgst :: (streamBlob bs h desc path).2.2)

/-- `ServeBlob`: when the request opts into transport compression, run the
negotiator first and return its error (possibly `nil`) if it matched or
failed; otherwise continue with canonical delivery. -/
def serveBlob (bs : BlobServer) (r : Request) (h0 : Headers) (dgst : Digest) :
    Option Err × Headers × List Event :=
  if r.transportCompression = "enabled" then
    let sc := serveBlobContent bs r h0 dgst
    if sc.1.1 || sc.1.2.isSome then (sc.1.2, sc.2)
    else
      let m := serveBlobMain bs r sc.2.1 dgst
      (m.1, m.2.1, sc.2.2 ++ m.2.2)
  else serveBlobMain bs r h0 dgst

/-- The value of the loop's `path` variable after a list of iterations, each
of which reassigns it to `filepath.Join(filepath.Dir(path), "data."+token)`. -/
def endPath (path : String) : List AcceptSpec → String
  | [] => path
  | enc :: rest => endPath (join2 (dir path) ("data." ++ enc.value)) rest

/-- The sequence of candidate paths the loop stats, paired with their
encoding entries, starting from `path` (the canonical blob path). -/
def candList (path : String) : List AcceptSpec → List (String × AcceptSpec)
  | [] => []
  | enc :: rest =>
    (join2 (dir path) ("data." ++ enc.value), enc) ::
      candList (join2 (dir path) ("data." ++ enc.value)) rest

/-- Invariant of `Clean`'s component stack (stack is most-recent-first):
components are nonempty, slash-free and not `.`, and any `..` components
(possible only for relative paths) sit at the bottom of the stack. -/
def StackInv (rooted : Bool) (stack : List (List Char)) : Prop :=
  (∀ c ∈ stack, c ≠ [] ∧ c ≠ ['.'] ∧ '/' ∉ c) ∧
  ∃ front back, stack = front ++ back ∧ dd ∉ front ∧ (∀ c ∈ back, c = dd) ∧
    (rooted = true → back = [])

/-! ### Concrete collaborator instances used by witnesses and counterexamples -/

/-- All response headers initially unset. -/
def egH : Headers := fun _ => ""

/-- Headers with `Content-Type` pre-populated by an outer layer. -/
def egHCT : Headers := fun k => if k = "Content-Type" then "text/plain" else ""

/-- Headers with the content-identity header pre-populated by an outer
layer. -/
def egHDCD : Headers :=
  fun k => if k = "Docker-Content-Digest" then "sha256:z" else ""

/-- A descriptor whose canonical digest is `sha256:c`. -/
def descC : Descriptor where
  mediaType := "application/foo"
  size := 5
  digest := "sha256:c"

/-- A server with a `gzip` sibling variant present, no redirect support. -/
def bsNeg : BlobServer where
  redirect := false
  pathFn := fun _ => Except.ok "/reg/ab/data"
  statterStat := fun _ => Except.ok descC
  driverStat := fun p =>
    if p = "/reg/ab/data.gzip" then Except.ok { size := 7 }
    else Except.error Err.pathNotFound
  driverURLFor := fun _ _ => Except.error Err.unsupportedMethod
  newFileReader := fun _ _ => Except.ok ()

/-- A server whose path function rejects the digest `sha256:bad` and whose
statter echoes the requested digest back as canonical; no variant exists. -/
def bsBadPath : BlobServer where
  redirect := false
  pathFn := fun d =>
    if d = "sha256:bad" then Except.error Err.invalidDigest
    else Except.ok "/reg/ab/data"
  statterStat := fun d => Except.ok { mediaType := "m", size := 3, digest := d }
  driverStat := fun _ => Except.error Err.pathNotFound
  driverURLFor := fun _ _ => Except.error Err.unsupportedMethod
  newFileReader := fun _ _ => Except.ok ()

/-- A redirect-enabled server whose backend can generate URLs. -/
def bsRedirOk : BlobServer where
  redirect := true
  pathFn := fun _ => Except.ok "/reg/ab/data"
  statterStat := fun _ => Except.ok descC
  driverStat := fun _ => Except.error Err.pathNotFound
  driverURLFor := fun _ _ => Except.ok "https://cdn.example/x"
  newFileReader := fun _ _ => Except.ok ()

/-- A server where the `zstd` sibling stat fails with a non-not-found
storage error while `gzip` is simply absent. -/
def bsC5 : BlobServer where
  redirect := false
  pathFn := fun _ => Except.ok "/reg/ab/data"
  statterStat := fun _ => Except.ok descC
  driverStat := fun p =>
    if p = "/reg/ab/data.gzip" then Except.error (Err.other 7)
    else Except.error Err.pathNotFound
  driverURLFor := fun _ _ => Except.error Err.unsupportedMethod
  newFileReader := fun _ _ => Except.ok ()

/-- A transport-compression request preferring `zstd` (weight 1) over `gzip`
(weight 0). -/
def reqZstdGzip : Request where
  method := "GET"
  transportCompression := "enabled"
  acceptRaw := [{ value := "zstd", q := 1 }, { value := "gzip", q := 0 }]

/-- A transport-compression request accepting only `gzip`. -/
def reqGzip : Request where
  method := "GET"
  transportCompression := "enabled"
  acceptRaw := [{ value := "gzip", q := 1 }]

/-- A transport-compression request with an empty accepted-encoding list. -/
def reqEmptyEnc : Request where
  method := "GET"
  transportCompression := "enabled"
  acceptRaw := []

/-- A request without the transport-compression opt-in. -/
def reqPlain : Request where
  method := "GET"
  transportCompression := ""
  acceptRaw := []

/-- A transport-compression request whose first encoding token contains a
path separator (the parser's token grammar is not restricted here). -/
def reqSlashTok : Request where
  method := "GET"
  transportCompression := "enabled"
  acceptRaw := [{ value := "a/b", q := 1 }, { value := "gzip", q := 1 }]

/-! ### Sanity checks of the filepath embedding against Go behaviour -/

example : clean "/a/b/../c" = "/a/c" := by decide
example : clean "" = "." := by decide
example : clean "a//b/./c" = "a/b/c" := by decide
example : clean "/../a" = "/a" := by decide
example : clean "../a" = "../a" := by decide
example : dir "/a/b/c" = "/a/b" := by decide
example : dir "abc" = "." := by decide
example : dir "/data" = "/" := by decide
example : join2 "/a/b" "data.gzip" = "/a/b/data.gzip" := by decide
example : join2 (dir "/v2/blobs/sha256/ab/abc/data") "data.gzip"
    = "/v2/blobs/sha256/ab/abc/data.gzip" := by decide
example :
    join2 (dir (join2 (dir "/r/ab/data") "data.a/b")) "data.gzip"
    = "/r/ab/data.a/data.gzip" := by decide

/-! ### Header-map lemmas -/

theorem hSet_same (h : Headers) (k v : String) : hSet h k v k = v := if_pos rfl

theorem hSet_ne (h : Headers) (k v k2 : String) (hne : k2 ≠ k) :
    hSet h k v k2 = h k2 := if_neg hne

/-! ### C1 — caching identity -/

/-- C1 counterexample: with transport compression enabled and a `gzip`
sibling present, `ServeBlob` completes through `ServeBlobContent`, whose
`ETag` and `ServeContent` identity are the caller-supplied raw digest
`sha256:r`, not the canonical digest `sha256:c` the descriptor source
reports for it. -/
theorem c1_counterexample :
    (serveBlob bsNeg reqGzip egH "sha256:r").2.1 "ETag" = "sha256:r"
    ∧ Event.serveContent "sha256:r" ∈ (serveBlob bsNeg reqGzip egH "sha256:r").2.2
    ∧ bsNeg.statterStat "sha256:r" = Except.ok descC
    ∧ descC.digest = "sha256:c"
    ∧ ("sha256:r" : String) ≠ "sha256:c" := by
  refine ⟨by decide, by decide, rfl, rfl, by decide⟩

/-! ### C4 — redirect outcome handling -/

/-- C4: with redirect mode enabled on the canonical path, the URL-generation
call has exactly three handled outcomes: success emits the temporary
redirect and returns with a nil error and no stream opened; an
`ErrUnsupportedMethod` result falls through to the direct-streaming tail and
is never itself surfaced; any other error is returned immediately with no
streaming attempt. -/
theorem c4_redirect_three_outcomes
    (bs : BlobServer) (r : Request) (h0 : Headers) (dgst : Digest)
    (desc : Descriptor) (path : String)
    (hnc : r.transportCompression ≠ "enabled")
    (hred : bs.redirect = true)
    (hstat : bs.statterStat dgst = Except.ok desc)
    (hpath : bs.pathFn desc.digest = Except.ok path) :
    (∀ url, bs.driverURLFor path r.method = Except.ok url →
      serveBlob bs r h0 dgst =
        (none, h0,
          [Event.statterStat dgst, Event.driverURLFor path r.method,
           Event.httpRedirect url]))
    ∧ (bs.driverURLFor path r.method = Except.error Err.unsupportedMethod →
        serveBlob bs r h0 dgst =
          ((streamBlob bs h0 desc path).1, (streamBlob bs h0 desc path).2.1,
            Event.statterStat dgst :: Event.driverURLFor path r.method ::
              (streamBlob bs h0 desc path).2.2))
    ∧ (∀ e, e ≠ Err.unsupportedMethod →
        bs.driverURLFor path r.method = Except.error e →
        serveBlob bs r h0 dgst =
          (some e, h0, [Event.statterStat dgst, Event.driverURLFor path r.method])) := by
  refine ⟨?_, ?_, ?_⟩
  · intro url hurl
    simp [serveBlob, hnc, serveBlobMain, hstat, hpath, hred, hurl]
  · intro hurl
    simp [serveBlob, hnc, serveBlobMain, hstat, hpath, hred, hurl]
  · intro e hne hurl
    simp [serveBlob, hnc, serveBlobMain, hstat, hpath, hred, hurl, hne]

/-- Witness for C4 at a concrete redirect-capable server: the hypotheses hold
and the response is the temporary redirect with no stream opened. -/
theorem c4_redirect_three_outcomes_witness :
    reqPlain.transportCompression ≠ "enabled"
    ∧ bsRedirOk.redirect = true
    ∧ bsRedirOk.statterStat "sha256:c" = Except.ok descC
    ∧ bsRedirOk.pathFn descC.digest = Except.ok "/reg/ab/data"
    ∧ bsRedirOk.driverURLFor "/reg/ab/data" reqPlain.method =
        Except.ok "https://cdn.example/x"
    ∧ serveBlob bsRedirOk reqPlain egH "sha256:c" =
        (none, egH,
          [Event.statterStat "sha256:c",
           Event.driverURLFor "/reg/ab/data" reqPlain.method,
           Event.httpRedirect "https://cdn.example/x"]) := by
  refine ⟨by decide, rfl, rfl, rfl, rfl, ?_⟩
  exact (c4_redirect_three_outcomes bsRedirOk reqPlain egH "sha256:c" descC
    "/reg/ab/data" (by decide) rfl rfl rfl).1 "https://cdn.example/x" rfl

/-! ### C6 — empty encoding list skips negotiation -/

/-- C6 counterexample: for a request whose encoding-preference list parses as
empty but whose digest the path function rejects, `ServeBlobContent` returns
an error rather than the no-match result with no error. -/
theorem c6_counterexample :
    parseAccept reqEmptyEnc.acceptRaw = []
    ∧ (serveBlobContent bsBadPath reqEmptyEnc egH "sha256:bad").1 =
        (false, some Err.invalidDigest)
    ∧ ((false, some Err.invalidDigest) : Bool × Option Err) ≠ (false, none) := by
  refine ⟨rfl, by decide, by decide⟩

/-- C6 (amended): when the encoding-preference list parses as empty,
negotiation is skipped entirely — no storage-driver call, no header write.
Provided the digest passes path resolution, `ServeBlobContent` reports
no-match with no error and `ServeBlob` proceeds with canonical delivery; if
path resolution rejects the digest, that error is returned instead, still
with no storage-driver call. -/
theorem c6_empty_encoding_skips_negotiation
    (bs : BlobServer) (r : Request) (h0 : Headers) (dgst : Digest)
    (hemp : parseAccept r.acceptRaw = []) :
    (∀ path, bs.pathFn dgst = Except.ok path →
      serveBlobContent bs r h0 dgst = ((false, none), h0, [])
      ∧ (r.transportCompression = "enabled" →
          serveBlob bs r h0 dgst = serveBlobMain bs r h0 dgst))
    ∧ (∀ e, bs.pathFn dgst = Except.error e →
        serveBlobContent bs r h0 dgst = ((false, some e), h0, [])) := by
  constructor
  · intro path hpath
    constructor
    · simp [serveBlobContent, hpath, hemp, negotiateLoop]
    · intro hcomp
      simp [serveBlob, hcomp, serveBlobContent, hpath, hemp, negotiateLoop]
  · intro e hpath
    simp [serveBlobContent, hpath]

/-- Witness for C6 (amended) at a concrete server and request. -/
theorem c6_empty_encoding_skips_negotiation_witness :
    parseAccept reqEmptyEnc.acceptRaw = []
    ∧ bsNeg.pathFn "sha256:c" = Except.ok "/reg/ab/data"
    ∧ serveBlobContent bsNeg reqEmptyEnc egH "sha256:c" = ((false, none), egH, [])
    ∧ (reqEmptyEnc.transportCompression = "enabled" →
        serveBlob bsNeg reqEmptyEnc egH "sha256:c" =
          serveBlobMain bsNeg reqEmptyEnc egH "sha256:c") := by
  refine ⟨rfl, rfl, ?_, ?_⟩
  · exact ((c6_empty_encoding_skips_negotiation bsNeg reqEmptyEnc egH "sha256:c"
      rfl).1 "/reg/ab/data" rfl).1
  · exact ((c6_empty_encoding_skips_negotiation bsNeg reqEmptyEnc egH "sha256:c"
      rfl).1 "/reg/ab/data" rfl).2

/-! ### C8 — rejection of malformed digests before I/O -/

/-- C8 counterexample: on the canonical `ServeBlob` entry path, a digest the
path function rejects still causes a descriptor-source call — the statter is
consulted before path resolution, so the request is not rejected before all
I/O. -/
theorem c8_counterexample :
    bsBadPath.pathFn "sha256:bad" = Except.error Err.invalidDigest
    ∧ (serveBlob bsBadPath reqPlain egH "sha256:bad").1 = some Err.invalidDigest
    ∧ Event.statterStat "sha256:bad" ∈
        (serveBlob bsBadPath reqPlain egH "sha256:bad").2.2 := by
  refine ⟨rfl, by decide, by decide⟩

/-! ### C10 — candidate sibling paths in the negotiation loop -/

/-- C10 counterexample: with encoding tokens `a/b` then `gzip`, the second
path stat'd by the negotiation loop is `/reg/ab/data.a/data.gzip` — the
in-loop reassignment compounds, because taking the directory of the previous
candidate (`/reg/ab/data.a/b`) does not recover the canonical containing
directory — so it differs from the sibling path `/reg/ab/data.gzip`. -/
theorem c10_counterexample :
    (serveBlobContent bsBadPath reqSlashTok egH "sha256:ok").2.2 =
      [Event.driverStat "/reg/ab/data.a/b",
       Event.driverStat "/reg/ab/data.a/data.gzip"]
    ∧ join2 (dir "/reg/ab/data") ("data." ++ "gzip") = "/reg/ab/data.gzip"
    ∧ ("/reg/ab/data.a/data.gzip" : String) ≠ "/reg/ab/data.gzip" := by
  refine ⟨by decide, by decide, by decide⟩

/-! ### Lemmas about the set-if-absent header primitive -/

theorem setIfAbsent_get2 (h : Headers) (k v k2 : String) (hkeep : h k2 ≠ "") :
    setIfAbsent h k v k2 = h k2 := by
  unfold setIfAbsent
  split_ifs with hc
  · refine hSet_ne h k v k2 (fun e => ?_)
    rw [e] at hkeep
    exact hkeep hc
  · rfl

theorem setIfAbsent_ne (h : Headers) (k v k2 : String) (hne : k2 ≠ k) :
    setIfAbsent h k v k2 = h k2 := by
  unfold setIfAbsent
  split_ifs with hc
  · exact hSet_ne h k v k2 hne
  · rfl

/-! ### Branch lemmas for the streaming tail and the negotiation loop -/

/-- A header other than `ETag`/`Cache-Control` that is non-empty going into
the streaming tail comes out unchanged. -/
theorem streamBlob_keeps (bs : BlobServer) (h : Headers) (desc : Descriptor)
    (path : String) (k : String) (hk1 : k ≠ "ETag") (hk2 : k ≠ "Cache-Control")
    (hne : h k ≠ "") :
    (streamBlob bs h desc path).2.1 k = h k := by
  cases hopen : bs.newFileReader path desc.size with
  | error e => simp [streamBlob, hopen]
  | ok u =>
    have v2 : (hSet (hSet h "ETag" ("\"" ++ desc.digest ++ "\""))
        "Cache-Control" cacheControlValue) k = h k := by
      rw [hSet_ne _ _ _ _ hk2, hSet_ne _ _ _ _ hk1]
    have n2 : (hSet (hSet h "ETag" ("\"" ++ desc.digest ++ "\""))
        "Cache-Control" cacheControlValue) k ≠ "" := by
      rw [v2]; exact hne
    have v3 : setIfAbsent (hSet (hSet h "ETag" ("\"" ++ desc.digest ++ "\""))
        "Cache-Control" cacheControlValue) "Docker-Content-Digest"
        desc.digest k = h k := by
      rw [setIfAbsent_get2 _ _ _ _ n2, v2]
    have n3 : setIfAbsent (hSet (hSet h "ETag" ("\"" ++ desc.digest ++ "\""))
        "Cache-Control" cacheControlValue) "Docker-Content-Digest"
        desc.digest k ≠ "" := by
      rw [v3]; exact hne
    have v4 : setIfAbsent (setIfAbsent (hSet (hSet h "ETag"
        ("\"" ++ desc.digest ++ "\"")) "Cache-Control" cacheControlValue)
        "Docker-Content-Digest" desc.digest) "Content-Type"
        desc.mediaType k = h k := by
      rw [setIfAbsent_get2 _ _ _ _ n3, v3]
    have n4 : setIfAbsent (setIfAbsent (hSet (hSet h "ETag"
        ("\"" ++ desc.digest ++ "\"")) "Cache-Control" cacheControlValue)
        "Docker-Content-Digest" desc.digest) "Content-Type"
        desc.mediaType k ≠ "" := by
      rw [v4]; exact hne
    have v5 : setIfAbsent (setIfAbsent (setIfAbsent (hSet (hSet h "ETag"
        ("\"" ++ desc.digest ++ "\"")) "Cache-Control" cacheControlValue)
        "Docker-Content-Digest" desc.digest) "Content-Type" desc.mediaType)
        "Content-Length" (toString desc.size) k = h k := by
      rw [setIfAbsent_get2 _ _ _ _ n4, v4]
    simpa [streamBlob, hopen] using v5

/-- When the streaming tail serves content, the identity string is the
descriptor's digest and the `ETag` header is that digest in quotes. -/
theorem streamBlob_sc (bs : BlobServer) (h : Headers) (desc : Descriptor)
    (path : String) :
    ∀ s, Event.serveContent s ∈ (streamBlob bs h desc path).2.2 →
      s = desc.digest
      ∧ (streamBlob bs h desc path).2.1 "ETag" =
          "\"" ++ desc.digest ++ "\"" := by
  intro s hs
  cases hopen : bs.newFileReader path desc.size with
  | error e => simp [streamBlob, hopen] at hs
  | ok u =>
    constructor
    · simp [streamBlob, hopen] at hs
      exact hs
    · simp only [streamBlob, hopen]
      rw [setIfAbsent_ne _ _ _ _ (by simp), setIfAbsent_ne _ _ _ _ (by simp),
          setIfAbsent_ne _ _ _ _ (by simp), hSet_ne _ _ _ _ (by simp),
          hSet_same]

/-- A header outside the five the negotiation loop writes is unchanged by the
loop, whatever it does. -/
theorem negotiateLoop_preserves (bs : BlobServer) (dgst : Digest) (h : Headers)
    (k : String) (hk1 : k ≠ "ETag") (hk2 : k ≠ "Cache-Control")
    (hk3 : k ≠ "Content-Type") (hk4 : k ≠ "Content-Length")
    (hk5 : k ≠ "Content-Encoding") :
    ∀ encs path, (negotiateLoop bs dgst h path encs).2.1 k = h k := by
  intro encs
  induction encs with
  | nil => intro path; simp [negotiateLoop]
  | cons enc rest ih =>
    intro path
    cases hstat : bs.driverStat (join2 (dir path) ("data." ++ enc.value)) with
    | error e =>
      by_cases he : e = Err.pathNotFound
      · simp [negotiateLoop, hstat, he, ih]
      · simp [negotiateLoop, hstat, he]
    | ok st =>
      cases hopen : bs.newFileReader (join2 (dir path) ("data." ++ enc.value))
          st.size with
      | error e => simp [negotiateLoop, hstat, hopen]
      | ok u =>
        simp only [negotiateLoop, hstat, hopen]
        rw [hSet_ne _ _ _ _ hk5, hSet_ne _ _ _ _ hk4, hSet_ne _ _ _ _ hk3,
            hSet_ne _ _ _ _ hk2, hSet_ne _ _ _ _ hk1]

/-- When the negotiation loop reports a match, the `ETag` header is the raw
caller-supplied digest and the content was served under that identity. -/
theorem negotiateLoop_found_headers (bs : BlobServer) (dgst : Digest)
    (h : Headers) :
    ∀ encs path, (negotiateLoop bs dgst h path encs).1.1 = true →
      (negotiateLoop bs dgst h path encs).2.1 "ETag" = dgst
      ∧ Event.serveContent dgst ∈ (negotiateLoop bs dgst h path encs).2.2 := by
  intro encs
  induction encs with
  | nil => intro path hf; simp [negotiateLoop] at hf
  | cons enc rest ih =>
    intro path hf
    cases hstat : bs.driverStat (join2 (dir path) ("data." ++ enc.value)) with
    | error e =>
      by_cases he : e = Err.pathNotFound
      · simp only [negotiateLoop, hstat, he] at hf ⊢
        simp only [reduceIte] at hf ⊢
        refine ⟨(ih _ hf).1, ?_⟩
        simp only [List.mem_cons]
        exact Or.inr (ih _ hf).2
      · simp [negotiateLoop, hstat, he] at hf
    | ok st =>
      cases hopen : bs.newFileReader (join2 (dir path) ("data." ++ enc.value))
          st.size with
      | error e => simp [negotiateLoop, hstat, hopen] at hf
      | ok u =>
        constructor
        · simp only [negotiateLoop, hstat, hopen]
          rw [hSet_ne _ _ _ _ (by simp), hSet_ne _ _ _ _ (by simp),
              hSet_ne _ _ _ _ (by simp), hSet_ne _ _ _ _ (by simp), hSet_same]
        · simp [negotiateLoop, hstat, hopen]

/-- `ServeBlobContent` leaves headers outside the five it writes unchanged. -/
theorem serveBlobContent_preserves (bs : BlobServer) (r : Request)
    (h0 : Headers) (dgst : Digest) (k : String) (hk1 : k ≠ "ETag")
    (hk2 : k ≠ "Cache-Control") (hk3 : k ≠ "Content-Type")
    (hk4 : k ≠ "Content-Length") (hk5 : k ≠ "Content-Encoding") :
    (serveBlobContent bs r h0 dgst).2.1 k = h0 k := by
  cases hp : bs.pathFn dgst with
  | error e => simp [serveBlobContent, hp]
  | ok path =>
    simpa [serveBlobContent, hp] using
      negotiateLoop_preserves bs dgst h0 k hk1 hk2 hk3 hk4 hk5
        (parseAccept r.acceptRaw) path

/-- A non-`ETag`/`Cache-Control` header that is non-empty going into the
canonical delivery part comes out unchanged. -/
theorem serveBlobMain_keeps (bs : BlobServer) (r : Request) (h : Headers)
    (dgst : Digest) (k : String) (hk1 : k ≠ "ETag")
    (hk2 : k ≠ "Cache-Control") (hne : h k ≠ "") :
    (serveBlobMain bs r h dgst).2.1 k = h k := by
  cases hstat : bs.statterStat dgst with
  | error e => simp [serveBlobMain, hstat]
  | ok desc =>
    cases hp : bs.pathFn desc.digest with
    | error e => simp [serveBlobMain, hstat, hp]
    | ok path =>
      by_cases hr : bs.redirect
      · cases hurl : bs.driverURLFor path r.method with
        | ok url => simp [serveBlobMain, hstat, hp, hr, hurl]
        | error e =>
          by_cases he : e = Err.unsupportedMethod
          · simpa [serveBlobMain, hstat, hp, hr, hurl, he] using
              streamBlob_keeps bs h desc path k hk1 hk2 hne
          · simp [serveBlobMain, hstat, hp, hr, hurl, he]
      · simpa [serveBlobMain, hstat, hp, hr] using
          streamBlob_keeps bs h desc path k hk1 hk2 hne

/-- When canonical delivery serves content, the identity string is the
descriptor's digest and `ETag` is that digest in quotes. -/
theorem serveBlobMain_sc (bs : BlobServer) (r : Request) (h : Headers)
    (dgst : Digest) (desc : Descriptor)
    (hstat : bs.statterStat dgst = Except.ok desc) :
    ∀ s, Event.serveContent s ∈ (serveBlobMain bs r h dgst).2.2 →
      s = desc.digest
      ∧ (serveBlobMain bs r h dgst).2.1 "ETag" =
          "\"" ++ desc.digest ++ "\"" := by
  intro s hs
  cases hp : bs.pathFn desc.digest with
  | error e => simp [serveBlobMain, hstat, hp] at hs
  | ok path =>
    by_cases hr : bs.redirect
    · cases hurl : bs.driverURLFor path r.method with
      | ok url => simp [serveBlobMain, hstat, hp, hr, hurl] at hs
      | error e =>
        by_cases he : e = Err.unsupportedMethod
        · simp only [serveBlobMain, hstat, hp, hr, if_true, hurl, he,
            reduceIte] at hs ⊢
          simp only [List.mem_cons] at hs
          rcases hs with h1 | h1 | h1
          · exact absurd h1 (by simp)
          · exact absurd h1 (by simp)
          · exact streamBlob_sc bs h desc path s h1
        · simp [serveBlobMain, hstat, hp, hr, hurl, he] at hs
    · simp only [serveBlobMain, hstat, hp, hr] at hs ⊢
      simp only [Bool.false_eq_true, if_false, List.mem_cons] at hs
      rcases hs with h1 | h1
      · exact absurd h1 (by simp)
      · simpa [hr] using streamBlob_sc bs h desc path s h1

/-- A negotiation run that does not report a match leaves the response
headers exactly as they were: the loop writes headers only on a
successful stat-and-open. -/
theorem negotiateLoop_nofound_headers (bs : BlobServer) (dgst : Digest)
    (h : Headers) :
    ∀ encs path, (negotiateLoop bs dgst h path encs).1.1 = false →
      (negotiateLoop bs dgst h path encs).2.1 = h := by
  intro encs
  induction encs with
  | nil => intro path _; simp [negotiateLoop]
  | cons enc rest ih =>
    intro path hf
    cases hstat : bs.driverStat (join2 (dir path) ("data." ++ enc.value)) with
    | error e =>
      by_cases he : e = Err.pathNotFound
      · simp only [negotiateLoop, hstat, he, reduceIte] at hf ⊢
        exact ih _ hf
      · simp [negotiateLoop, hstat, he]
    | ok st =>
      cases hopen : bs.newFileReader (join2 (dir path) ("data." ++ enc.value))
          st.size with
      | error e => simp [negotiateLoop, hstat, hopen]
      | ok u => simp [negotiateLoop, hstat, hopen] at hf

/-- A negotiation run that does not report a match serves no content. -/
theorem negotiateLoop_no_sc (bs : BlobServer) (dgst : Digest) (h : Headers) :
    ∀ encs path, (negotiateLoop bs dgst h path encs).1.1 = false →
      ∀ s, Event.serveContent s ∉ (negotiateLoop bs dgst h path encs).2.2 := by
  intro encs
  induction encs with
  | nil => intro path _ s; simp [negotiateLoop]
  | cons enc rest ih =>
    intro path hf s
    cases hstat : bs.driverStat (join2 (dir path) ("data." ++ enc.value)) with
    | error e =>
      by_cases he : e = Err.pathNotFound
      · simp only [negotiateLoop, hstat, he, reduceIte] at hf ⊢
        simp only [List.mem_cons, not_or]
        exact ⟨by simp, ih _ hf s⟩
      · simp [negotiateLoop, hstat, he]
    | ok st =>
      cases hopen : bs.newFileReader (join2 (dir path) ("data." ++ enc.value))
          st.size with
      | error e => simp [negotiateLoop, hstat, hopen]
      | ok u => simp [negotiateLoop, hstat, hopen] at hf

theorem serveBlobContent_nofound (bs : BlobServer) (r : Request)
    (h0 : Headers) (dgst : Digest)
    (hf : (serveBlobContent bs r h0 dgst).1.1 = false) :
    (serveBlobContent bs r h0 dgst).2.1 = h0 := by
  cases hp : bs.pathFn dgst with
  | error e => simp [serveBlobContent, hp]
  | ok path =>
    simp only [serveBlobContent, hp] at hf ⊢
    exact negotiateLoop_nofound_headers bs dgst h0 (parseAccept r.acceptRaw)
      path hf

theorem serveBlobContent_no_sc (bs : BlobServer) (r : Request) (h0 : Headers)
    (dgst : Digest) (hf : (serveBlobContent bs r h0 dgst).1.1 = false) :
    ∀ s, Event.serveContent s ∉ (serveBlobContent bs r h0 dgst).2.2 := by
  intro s
  cases hp : bs.pathFn dgst with
  | error e => simp [serveBlobContent, hp]
  | ok path =>
    simp only [serveBlobContent, hp] at hf ⊢
    exact negotiateLoop_no_sc bs dgst h0 (parseAccept r.acceptRaw) path hf s

/-- A successful negotiation writes `application/octet-stream` into
`Content-Type`. -/
theorem negotiateLoop_found_ct (bs : BlobServer) (dgst : Digest)
    (h : Headers) :
    ∀ encs path, (negotiateLoop bs dgst h path encs).1.1 = true →
      (negotiateLoop bs dgst h path encs).2.1 "Content-Type" =
        "application/octet-stream" := by
  intro encs
  induction encs with
  | nil => intro path hf; simp [negotiateLoop] at hf
  | cons enc rest ih =>
    intro path hf
    cases hstat : bs.driverStat (join2 (dir path) ("data." ++ enc.value)) with
    | error e =>
      by_cases he : e = Err.pathNotFound
      · simp only [negotiateLoop, hstat, he, reduceIte] at hf ⊢
        exact ih _ hf
      · simp [negotiateLoop, hstat, he] at hf
    | ok st =>
      cases hopen : bs.newFileReader (join2 (dir path) ("data." ++ enc.value))
          st.size with
      | error e => simp [negotiateLoop, hstat, hopen] at hf
      | ok u =>
        simp only [negotiateLoop, hstat, hopen]
        rw [hSet_ne _ _ _ _ (by decide), hSet_ne _ _ _ _ (by decide),
          hSet_same]

/-- The negotiation loop's result — and, on a match, its `Content-Type` and
`Content-Length` — do not depend on the incoming headers: the write on
success is unconditional. -/
theorem negotiateLoop_indep (bs : BlobServer) (dgst : Digest)
    (h h2 : Headers) :
    ∀ encs path,
      (negotiateLoop bs dgst h path encs).1 =
        (negotiateLoop bs dgst h2 path encs).1
      ∧ ((negotiateLoop bs dgst h path encs).1.1 = true →
          (negotiateLoop bs dgst h path encs).2.1 "Content-Type" =
            (negotiateLoop bs dgst h2 path encs).2.1 "Content-Type"
          ∧ (negotiateLoop bs dgst h path encs).2.1 "Content-Length" =
            (negotiateLoop bs dgst h2 path encs).2.1 "Content-Length") := by
  intro encs
  induction encs with
  | nil => intro path; simp [negotiateLoop]
  | cons enc rest ih =>
    intro path
    cases hstat : bs.driverStat (join2 (dir path) ("data." ++ enc.value)) with
    | error e =>
      by_cases he : e = Err.pathNotFound
      · simpa [negotiateLoop, hstat, he] using
          ih (join2 (dir path) ("data." ++ enc.value))
      · simp [negotiateLoop, hstat, he]
    | ok st =>
      cases hopen : bs.newFileReader (join2 (dir path) ("data." ++ enc.value))
          st.size with
      | error e => simp [negotiateLoop, hstat, hopen]
      | ok u =>
        simp only [negotiateLoop, hstat, hopen]
        refine ⟨by trivial, fun _ => ⟨?_, ?_⟩⟩
        · rw [hSet_ne _ _ _ _ (by decide), hSet_ne _ _ _ _ (by decide),
            hSet_same, hSet_ne _ _ _ _ (by decide),
            hSet_ne _ _ _ _ (by decide), hSet_same]
        · rw [hSet_ne _ _ _ _ (by decide), hSet_same,
            hSet_ne _ _ _ _ (by decide), hSet_same]

theorem serveBlobContent_indep (bs : BlobServer) (r : Request)
    (h h2 : Headers) (dgst : Digest) :
    (serveBlobContent bs r h dgst).1 = (serveBlobContent bs r h2 dgst).1
    ∧ ((serveBlobContent bs r h dgst).1.1 = true →
        (serveBlobContent bs r h dgst).2.1 "Content-Type" =
          (serveBlobContent bs r h2 dgst).2.1 "Content-Type"
        ∧ (serveBlobContent bs r h dgst).2.1 "Content-Length" =
          (serveBlobContent bs r h2 dgst).2.1 "Content-Length") := by
  cases hp : bs.pathFn dgst with
  | error e => simp [serveBlobContent, hp]
  | ok path =>
    simpa [serveBlobContent, hp] using
      negotiateLoop_indep bs dgst h h2 (parseAccept r.acceptRaw) path

theorem serveBlobContent_found_ct (bs : BlobServer) (r : Request)
    (h0 : Headers) (dgst : Digest)
    (hf : (serveBlobContent bs r h0 dgst).1.1 = true) :
    (serveBlobContent bs r h0 dgst).2.1 "Content-Type" =
      "application/octet-stream" := by
  cases hp : bs.pathFn dgst with
  | error e => simp [serveBlobContent, hp] at hf
  | ok path =>
    simp only [serveBlobContent, hp] at hf ⊢
    exact negotiateLoop_found_ct bs dgst h0 (parseAccept r.acceptRaw) path hf

/-- C1 (amended): whenever `ServeBlob` delivers canonically — the request
does not opt into transport compression, or it does and negotiation reports
no match — the caching identity, that is both the `ServeContent` identity
string and the `ETag` value, is the descriptor's canonical digest (quoted in
the `ETag`); on the negotiated-variant path (`ServeBlobContent`) both are
the caller-supplied raw digest argument, the descriptor source not being
consulted there. -/
theorem c1_caching_identity (bs : BlobServer) (r : Request) (h0 : Headers)
    (dgst : Digest) :
    (∀ desc, bs.statterStat dgst = Except.ok desc →
      (r.transportCompression = "enabled" →
        (serveBlobContent bs r h0 dgst).1 = (false, none)) →
      ∀ s, Event.serveContent s ∈ (serveBlob bs r h0 dgst).2.2 →
        s = desc.digest
        ∧ (serveBlob bs r h0 dgst).2.1 "ETag" =
            "\"" ++ desc.digest ++ "\"")
    ∧ ((serveBlobContent bs r h0 dgst).1.1 = true →
        (serveBlobContent bs r h0 dgst).2.1 "ETag" = dgst
        ∧ Event.serveContent dgst ∈ (serveBlobContent bs r h0 dgst).2.2) := by
  constructor
  · intro desc hstat hreach s hs
    by_cases hc : r.transportCompression = "enabled"
    · have hsc := hreach hc
      have hf : (serveBlobContent bs r h0 dgst).1.1 = false := by rw [hsc]
      have he : (serveBlobContent bs r h0 dgst).1.2 = none := by rw [hsc]
      have hserve : serveBlob bs r h0 dgst =
          ((serveBlobMain bs r (serveBlobContent bs r h0 dgst).2.1 dgst).1,
           (serveBlobMain bs r (serveBlobContent bs r h0 dgst).2.1 dgst).2.1,
           (serveBlobContent bs r h0 dgst).2.2 ++
             (serveBlobMain bs r (serveBlobContent bs r h0 dgst).2.1
               dgst).2.2) := by
        simp [serveBlob, hc, hf, he]
      rw [hserve] at hs ⊢
      have hs2 : Event.serveContent s ∈
          (serveBlobContent bs r h0 dgst).2.2 ++
            (serveBlobMain bs r (serveBlobContent bs r h0 dgst).2.1
              dgst).2.2 := hs
      rcases List.mem_append.mp hs2 with h1 | h1
      · exact absurd h1 (serveBlobContent_no_sc bs r h0 dgst hf s)
      · exact serveBlobMain_sc bs r (serveBlobContent bs r h0 dgst).2.1 dgst
          desc hstat s h1
    · have hserve : serveBlob bs r h0 dgst = serveBlobMain bs r h0 dgst := by
        simp [serveBlob, hc]
      rw [hserve] at hs ⊢
      exact serveBlobMain_sc bs r h0 dgst desc hstat s hs
  · intro hf
    cases hp : bs.pathFn dgst with
    | error e => simp [serveBlobContent, hp] at hf
    | ok path =>
      simp only [serveBlobContent, hp] at hf ⊢
      exact negotiateLoop_found_headers bs dgst h0 (parseAccept r.acceptRaw)
        path hf

/-- Witness for C1 (amended): a canonical run serves under the canonical
digest `sha256:c` with that digest quoted in the `ETag`; a negotiated run
serves under the raw digest `sha256:r`. -/
theorem c1_caching_identity_witness :
    (("sha256:c" : String) = descC.digest
      ∧ bsNeg.statterStat "sha256:x" = Except.ok descC
      ∧ Event.serveContent "sha256:c" ∈
          (serveBlob bsNeg reqPlain egH "sha256:x").2.2
      ∧ (serveBlob bsNeg reqPlain egH "sha256:x").2.1 "ETag" =
          "\"" ++ "sha256:c" ++ "\"")
    ∧ ((serveBlobContent bsNeg reqGzip egH "sha256:r").1.1 = true
      ∧ (serveBlobContent bsNeg reqGzip egH "sha256:r").2.1 "ETag" =
          "sha256:r") := by
  have h1 := (c1_caching_identity bsNeg reqPlain egH "sha256:x").1 descC rfl
    (fun h => absurd h (by decide)) "sha256:c" (by decide)
  refine ⟨⟨h1.1, rfl, by decide, h1.2⟩, by decide,
    ((c1_caching_identity bsNeg reqGzip egH "sha256:r").2 (by decide)).1⟩

/-! ### C3 — no overwrite of populated headers -/

/-- C3 (amended): on every path that does not end in a negotiated-variant
match — including opted-in requests whose negotiation misses or errors — a
pre-populated `Content-Type`, `Content-Length` or `Docker-Content-Digest` is
never overwritten; a negotiated match overwrites `Content-Type` (to
`application/octet-stream`) and `Content-Length` unconditionally, their
final values independent of the incoming headers, while the
content-identity header `Docker-Content-Digest` is preserved on all
paths. -/
theorem c3_no_overwrite (bs : BlobServer) (r : Request) (h0 : Headers)
    (dgst : Digest) :
    ((r.transportCompression = "enabled" →
        (serveBlobContent bs r h0 dgst).1.1 = false) →
      ∀ k, (k = "Content-Type" ∨ k = "Content-Length" ∨
          k = "Docker-Content-Digest") →
        h0 k ≠ "" → (serveBlob bs r h0 dgst).2.1 k = h0 k)
    ∧ (h0 "Docker-Content-Digest" ≠ "" →
        (serveBlob bs r h0 dgst).2.1 "Docker-Content-Digest" =
          h0 "Docker-Content-Digest")
    ∧ ((serveBlobContent bs r h0 dgst).1.1 = true →
        (serveBlobContent bs r h0 dgst).2.1 "Content-Type" =
          "application/octet-stream"
        ∧ ∀ g : Headers,
            (serveBlobContent bs r g dgst).2.1 "Content-Type" =
              (serveBlobContent bs r h0 dgst).2.1 "Content-Type"
            ∧ (serveBlobContent bs r g dgst).2.1 "Content-Length" =
              (serveBlobContent bs r h0 dgst).2.1 "Content-Length") := by
  refine ⟨?_, ?_, ?_⟩
  · intro hreach k hk hne2
    have main : ∀ k2, k2 ≠ "ETag" → k2 ≠ "Cache-Control" → h0 k2 ≠ "" →
        (serveBlob bs r h0 dgst).2.1 k2 = h0 k2 := by
      intro k2 a b hne3
      by_cases hc : r.transportCompression = "enabled"
      · have hf := hreach hc
        have hh : (serveBlobContent bs r h0 dgst).2.1 = h0 :=
          serveBlobContent_nofound bs r h0 dgst hf
        by_cases hb : ((serveBlobContent bs r h0 dgst).1.1 ||
            (serveBlobContent bs r h0 dgst).1.2.isSome) = true
        · simp only [serveBlob, hc, if_true, reduceIte, hb]
          rw [hh]
        · simp only [serveBlob, hc, if_true, reduceIte, hb,
            Bool.false_eq_true, if_false]
          rw [hh]
          exact serveBlobMain_keeps bs r h0 dgst k2 a b hne3
      · simp only [serveBlob, hc, if_false]
        exact serveBlobMain_keeps bs r h0 dgst k2 a b hne3
    rcases hk with rfl | rfl | rfl
    · exact main _ (by decide) (by decide) hne2
    · exact main _ (by decide) (by decide) hne2
    · exact main _ (by decide) (by decide) hne2
  · intro hne
    by_cases hc : r.transportCompression = "enabled"
    · have hDCD : (serveBlobContent bs r h0 dgst).2.1 "Docker-Content-Digest"
          = h0 "Docker-Content-Digest" :=
        serveBlobContent_preserves bs r h0 dgst _ (by simp) (by simp)
          (by simp) (by simp) (by simp)
      by_cases hb : ((serveBlobContent bs r h0 dgst).1.1 ||
          (serveBlobContent bs r h0 dgst).1.2.isSome) = true
      · simp only [serveBlob, hc, if_true, reduceIte, hb]
        exact hDCD
      · simp only [serveBlob, hc, if_true, reduceIte, hb, Bool.false_eq_true,
          if_false]
        rw [serveBlobMain_keeps bs r _ dgst _ (by simp) (by simp)
          (by rw [hDCD]; exact hne)]
        exact hDCD
    · simp only [serveBlob, hc, if_false]
      exact serveBlobMain_keeps bs r h0 dgst _ (by simp) (by simp) hne
  · intro hfound
    refine ⟨serveBlobContent_found_ct bs r h0 dgst hfound, ?_⟩
    intro g
    have hind := serveBlobContent_indep bs r h0 g dgst
    exact ⟨(hind.2 hfound).1.symm, (hind.2 hfound).2.symm⟩

/-- Witness for C3 (amended): a pre-set `Content-Type` survives a canonical
run; a pre-set `Docker-Content-Digest` survives even a negotiated-match
run; and a negotiated match writes `application/octet-stream` over a
pre-set `Content-Type`. -/
theorem c3_no_overwrite_witness :
    ((reqPlain.transportCompression = "enabled" →
        (serveBlobContent bsNeg reqPlain egHCT "sha256:x").1.1 = false)
      ∧ egHCT "Content-Type" ≠ ""
      ∧ (serveBlob bsNeg reqPlain egHCT "sha256:x").2.1 "Content-Type" =
          egHCT "Content-Type")
    ∧ (egHDCD "Docker-Content-Digest" ≠ ""
      ∧ (serveBlob bsNeg reqGzip egHDCD "sha256:r").2.1
          "Docker-Content-Digest" = egHDCD "Docker-Content-Digest")
    ∧ ((serveBlobContent bsNeg reqGzip egHCT "sha256:r").1.1 = true
      ∧ (serveBlobContent bsNeg reqGzip egHCT "sha256:r").2.1 "Content-Type"
          = "application/octet-stream") := by
  refine ⟨⟨fun h => absurd h (by decide), by decide, ?_⟩, ⟨by decide, ?_⟩,
    by decide, ?_⟩
  · exact (c3_no_overwrite bsNeg reqPlain egHCT "sha256:x").1
      (fun h => absurd h (by decide)) "Content-Type" (Or.inl rfl) (by decide)
  · exact (c3_no_overwrite bsNeg reqGzip egHDCD "sha256:r").2.1 (by decide)
  · exact ((c3_no_overwrite bsNeg reqGzip egHCT "sha256:r").2.2 (by decide)).1

/-! ### C7 — the ETag quoting asymmetry -/

/-- C7: whenever the canonical streaming path serves content, the `ETag`
header is the digest string wrapped in double quotes, while whenever the
negotiated-variant path serves content, the `ETag` is the raw unquoted
digest string. -/
theorem c7_etag_quoting (bs : BlobServer) (r : Request) (h0 : Headers)
    (dgst : Digest) :
    (∀ desc, r.transportCompression ≠ "enabled" →
      bs.statterStat dgst = Except.ok desc →
      ∀ s, Event.serveContent s ∈ (serveBlob bs r h0 dgst).2.2 →
        (serveBlob bs r h0 dgst).2.1 "ETag" = "\"" ++ desc.digest ++ "\"")
    ∧ ((serveBlobContent bs r h0 dgst).1.1 = true →
        (serveBlobContent bs r h0 dgst).2.1 "ETag" = dgst) := by
  constructor
  · intro desc hnc hstat s hs
    simp only [serveBlob, if_neg hnc] at hs ⊢
    exact (serveBlobMain_sc bs r h0 dgst desc hstat s hs).2
  · intro hf
    cases hp : bs.pathFn dgst with
    | error e => simp [serveBlobContent, hp] at hf
    | ok path =>
      simp only [serveBlobContent, hp] at hf ⊢
      exact (negotiateLoop_found_headers bs dgst h0 (parseAccept r.acceptRaw)
        path hf).1

/-- Witness for C7: the canonical run's `ETag` is `"sha256:c"` in quotes; the
negotiated run's `ETag` is the bare `sha256:r`. -/
theorem c7_etag_quoting_witness :
    (reqPlain.transportCompression ≠ "enabled"
      ∧ bsNeg.statterStat "sha256:x" = Except.ok descC
      ∧ Event.serveContent "sha256:c" ∈
          (serveBlob bsNeg reqPlain egH "sha256:x").2.2
      ∧ (serveBlob bsNeg reqPlain egH "sha256:x").2.1 "ETag" =
          "\"" ++ "sha256:c" ++ "\"")
    ∧ ((serveBlobContent bsNeg reqGzip egH "sha256:r").1.1 = true
      ∧ (serveBlobContent bsNeg reqGzip egH "sha256:r").2.1 "ETag" =
          "sha256:r") := by
  refine ⟨⟨by decide, rfl, by decide, ?_⟩, by decide, ?_⟩
  · exact (c7_etag_quoting bsNeg reqPlain egH "sha256:x").1 descC (by decide)
      rfl "sha256:c" (by decide)
  · exact (c7_etag_quoting bsNeg reqGzip egH "sha256:r").2 (by decide)

/-! ### C8 — where path-resolution rejection happens relative to I/O -/

/-- C8 (amended): a digest rejected by the path function is rejected by
`ServeBlobContent` — and hence by `ServeBlob`'s transport-compression entry —
before any I/O (no descriptor-source and no storage-driver event); on the
canonical `ServeBlob` entry, however, the descriptor source is consulted
first and the path function only ever sees the descriptor's digest, so the
rejection happens after that lookup, though still before any storage-driver
call. -/
theorem c8_reject_before_io (bs : BlobServer) (r : Request) (h0 : Headers)
    (dgst : Digest) (e : Err) :
    (bs.pathFn dgst = Except.error e →
      serveBlobContent bs r h0 dgst = ((false, some e), h0, []))
    ∧ (bs.pathFn dgst = Except.error e →
        r.transportCompression = "enabled" →
        serveBlob bs r h0 dgst = (some e, h0, []))
    ∧ (∀ desc, r.transportCompression ≠ "enabled" →
        bs.statterStat dgst = Except.ok desc →
        bs.pathFn desc.digest = Except.error e →
        serveBlob bs r h0 dgst = (some e, h0, [Event.statterStat dgst])) := by
  refine ⟨?_, ?_, ?_⟩
  · intro hp
    simp [serveBlobContent, hp]
  · intro hp hc
    simp [serveBlob, hc, serveBlobContent, hp]
  · intro desc hnc hstat hp
    simp [serveBlob, hnc, serveBlobMain, hstat, hp]

/-- Witness for C8 (amended): `sha256:bad` is rejected with no events on the
negotiator entry, while the canonical entry still records a statter call. -/
theorem c8_reject_before_io_witness :
    (bsBadPath.pathFn "sha256:bad" = Except.error Err.invalidDigest
      ∧ serveBlobContent bsBadPath reqGzip egH "sha256:bad" =
          ((false, some Err.invalidDigest), egH, []))
    ∧ (reqPlain.transportCompression ≠ "enabled"
      ∧ bsBadPath.statterStat "sha256:bad" =
          Except.ok { mediaType := "m", size := 3, digest := "sha256:bad" }
      ∧ serveBlob bsBadPath reqPlain egH "sha256:bad" =
          (some Err.invalidDigest, egH, [Event.statterStat "sha256:bad"])) := by
  refine ⟨⟨rfl, ?_⟩, by decide, rfl, ?_⟩
  · exact (c8_reject_before_io bsBadPath reqGzip egH "sha256:bad"
      Err.invalidDigest).1 rfl
  · exact (c8_reject_before_io bsBadPath reqPlain egH "sha256:bad"
      Err.invalidDigest).2.2 { mediaType := "m", size := 3, digest := "sha256:bad" }
      (by decide) rfl rfl

/-! ### Order and permutation facts about the modelled parse -/

theorem insertByQ_perm (a : AcceptSpec) (l : List AcceptSpec) :
    (insertByQ a l).Perm (a :: l) := by
  induction l with
  | nil => exact List.Perm.refl _
  | cons b rest ih =>
    unfold insertByQ
    split_ifs with hq
    · exact List.Perm.refl _
    · exact (ih.cons b).trans (List.Perm.swap a b rest)

theorem insertByQ_pairwise (a : AcceptSpec) (l : List AcceptSpec)
    (hl : List.Pairwise (fun x y => y.q ≤ x.q) l) :
    List.Pairwise (fun x y => y.q ≤ x.q) (insertByQ a l) := by
  induction l with
  | nil => simp [insertByQ]
  | cons b rest ih =>
    rcases List.pairwise_cons.mp hl with ⟨hb, hrest⟩
    unfold insertByQ
    split_ifs with hq
    · refine List.pairwise_cons.mpr ⟨?_, hl⟩
      intro x hx
      rcases List.mem_cons.mp hx with rfl | hx
      · exact hq
      · exact le_trans (hb x hx) hq
    · refine List.pairwise_cons.mpr ⟨?_, ih hrest⟩
      intro x hx
      rcases List.mem_cons.mp ((insertByQ_perm a rest).mem_iff.mp hx)
        with rfl | hx2
      · exact le_of_lt (lt_of_not_le hq)
      · exact hb x hx2

theorem parseAccept_sorted (l : List AcceptSpec) :
    List.Pairwise (fun x y => y.q ≤ x.q) (parseAccept l) := by
  induction l with
  | nil => simp [parseAccept]
  | cons a rest ih => exact insertByQ_pairwise a _ ih

theorem parseAccept_perm (l : List AcceptSpec) : (parseAccept l).Perm l := by
  induction l with
  | nil => exact List.Perm.refl _
  | cons a rest ih => exact (insertByQ_perm a _).trans (ih.cons a)

/-! ### Split lemmas for the negotiation loop -/

/-- A run over candidates that all stat not-found finishes with no match, no
error, untouched headers, and exactly one stat event per candidate. -/
theorem negotiateLoop_all_notfound (bs : BlobServer) (dgst : Digest)
    (h : Headers) :
    ∀ encs path,
      (∀ c ∈ candList path encs,
        bs.driverStat c.1 = Except.error Err.pathNotFound) →
      negotiateLoop bs dgst h path encs =
        ((false, none), h,
          (candList path encs).map (fun c => Event.driverStat c.1)) := by
  intro encs
  induction encs with
  | nil => intro path _; simp [negotiateLoop, candList]
  | cons enc rest ih =>
    intro path hall
    have h1 : bs.driverStat (join2 (dir path) ("data." ++ enc.value)) =
        Except.error Err.pathNotFound :=
      hall (join2 (dir path) ("data." ++ enc.value), enc) (by simp [candList])
    have h2 := ih (join2 (dir path) ("data." ++ enc.value))
      (fun c hc => hall c
        (by simp only [candList, List.mem_cons]; exact Or.inr hc))
    simp [negotiateLoop, candList, h1, h2]

/-- Splitting a run after a prefix of not-found candidates: the loop
continues on the rest from the compounded path, with the prefix's stat
events in front. -/
theorem negotiateLoop_split (bs : BlobServer) (dgst : Digest) (h : Headers)
    (encs2 : List AcceptSpec) :
    ∀ encs1 path,
      (∀ c ∈ candList path encs1,
        bs.driverStat c.1 = Except.error Err.pathNotFound) →
      negotiateLoop bs dgst h path (encs1 ++ encs2) =
        ((negotiateLoop bs dgst h (endPath path encs1) encs2).1,
         (negotiateLoop bs dgst h (endPath path encs1) encs2).2.1,
         (candList path encs1).map (fun c => Event.driverStat c.1) ++
           (negotiateLoop bs dgst h (endPath path encs1) encs2).2.2) := by
  intro encs1
  induction encs1 with
  | nil => intro path _; simp [candList, endPath]
  | cons enc rest ih =>
    intro path hall
    have h1 : bs.driverStat (join2 (dir path) ("data." ++ enc.value)) =
        Except.error Err.pathNotFound :=
      hall (join2 (dir path) ("data." ++ enc.value), enc) (by simp [candList])
    have h2 := ih (join2 (dir path) ("data." ++ enc.value))
      (fun c hc => hall c
        (by simp only [candList, List.mem_cons]; exact Or.inr hc))
    simp [negotiateLoop, candList, endPath, h1, h2]

/-! ### C5 — not-found continues, any other stat error aborts -/

/-- C5: during negotiation, a candidate whose sibling stat reports not-found
is skipped (if all candidates do, the whole run ends with no match and no
error, having stat'd every candidate); and a candidate whose stat fails with
any other storage error aborts immediately — the trace stops at that stat,
no later candidate is consulted, nothing is served, and the error is
returned. -/
theorem c5_negotiation_error_handling (bs : BlobServer) (r : Request)
    (h0 : Headers) (dgst : Digest) (path : String)
    (hp : bs.pathFn dgst = Except.ok path) :
    ((∀ c ∈ candList path (parseAccept r.acceptRaw),
        bs.driverStat c.1 = Except.error Err.pathNotFound) →
      serveBlobContent bs r h0 dgst =
        ((false, none), h0,
          (candList path (parseAccept r.acceptRaw)).map
            (fun c => Event.driverStat c.1)))
    ∧ (∀ encs1 enc encs2 e,
        parseAccept r.acceptRaw = encs1 ++ enc :: encs2 →
        (∀ c ∈ candList path encs1,
          bs.driverStat c.1 = Except.error Err.pathNotFound) →
        e ≠ Err.pathNotFound →
        bs.driverStat (join2 (dir (endPath path encs1))
            ("data." ++ enc.value)) = Except.error e →
        serveBlobContent bs r h0 dgst =
          ((false, some e), h0,
            (candList path encs1).map (fun c => Event.driverStat c.1) ++
              [Event.driverStat (join2 (dir (endPath path encs1))
                ("data." ++ enc.value))])) := by
  constructor
  · intro hall
    simp only [serveBlobContent, hp]
    exact negotiateLoop_all_notfound bs dgst h0 (parseAccept r.acceptRaw)
      path hall
  · intro encs1 enc encs2 e hsplit hall he hstat
    simp only [serveBlobContent, hp, hsplit]
    rw [negotiateLoop_split bs dgst h0 (enc :: encs2) encs1 path hall]
    simp [negotiateLoop, hstat, he]

/-- Witness for C5: with preference `[zstd, gzip]`, the `zstd` candidate is
not found and skipped, and the `gzip` candidate's stat error `other 7`
aborts negotiation right there. -/
theorem c5_negotiation_error_handling_witness :
    bsC5.pathFn "sha256:c" = Except.ok "/reg/ab/data"
    ∧ parseAccept reqZstdGzip.acceptRaw =
        [{ value := "zstd", q := 1 }] ++
          { value := "gzip", q := 0 } :: []
    ∧ (∀ c ∈ candList "/reg/ab/data" [{ value := "zstd", q := 1 }],
        bsC5.driverStat c.1 = Except.error Err.pathNotFound)
    ∧ Err.other 7 ≠ Err.pathNotFound
    ∧ bsC5.driverStat (join2 (dir (endPath "/reg/ab/data"
          [{ value := "zstd", q := 1 }])) ("data." ++ "gzip")) =
        Except.error (Err.other 7)
    ∧ serveBlobContent bsC5 reqZstdGzip egH "sha256:c" =
        ((false, some (Err.other 7)), egH,
          (candList "/reg/ab/data" [{ value := "zstd", q := 1 }]).map
              (fun c => Event.driverStat c.1) ++
            [Event.driverStat (join2 (dir (endPath "/reg/ab/data"
              [{ value := "zstd", q := 1 }])) ("data." ++ "gzip"))]) := by
  refine ⟨rfl, by decide, ?_, by decide, rfl, ?_⟩
  · intro c hc
    fin_cases hc; rfl
  · exact (c5_negotiation_error_handling bsC5 reqZstdGzip egH "sha256:c"
      "/reg/ab/data" rfl).2 [{ value := "zstd", q := 1 }]
      { value := "gzip", q := 0 } [] (Err.other 7) (by decide)
      (by intro c hc; fin_cases hc; rfl) (by decide) rfl

/-! ### C2 — first existing candidate in descending preference order -/

/-- C2: the parsed preference list is ordered by descending weight (a stable
permutation of the original entries, ties keeping original order by
construction of the modelled parse), and the negotiator serves the first
candidate in that order whose sibling path exists — wherever it sits in the
list — setting `Content-Encoding` to its token; with exactly one existing
candidate this is that candidate. -/
theorem c2_serves_highest_existing (bs : BlobServer) (r : Request)
    (h0 : Headers) (dgst : Digest) (path : String)
    (hp : bs.pathFn dgst = Except.ok path) :
    (List.Pairwise (fun x y => y.q ≤ x.q) (parseAccept r.acceptRaw)
      ∧ (parseAccept r.acceptRaw).Perm r.acceptRaw)
    ∧ (∀ encs1 enc encs2 st,
        parseAccept r.acceptRaw = encs1 ++ enc :: encs2 →
        (∀ c ∈ candList path encs1,
          bs.driverStat c.1 = Except.error Err.pathNotFound) →
        bs.driverStat (join2 (dir (endPath path encs1))
            ("data." ++ enc.value)) = Except.ok st →
        bs.newFileReader (join2 (dir (endPath path encs1))
            ("data." ++ enc.value)) st.size = Except.ok () →
        (serveBlobContent bs r h0 dgst).1 = (true, none)
        ∧ (serveBlobContent bs r h0 dgst).2.1 "Content-Encoding" =
            enc.value) := by
  refine ⟨⟨parseAccept_sorted _, parseAccept_perm _⟩, ?_⟩
  intro encs1 enc encs2 st hsplit hall hstat hopen
  simp only [serveBlobContent, hp, hsplit]
  rw [negotiateLoop_split bs dgst h0 (enc :: encs2) encs1 path hall]
  constructor
  · simp [negotiateLoop, hstat, hopen]
  · simp only [negotiateLoop, hstat, hopen]
    rw [hSet_same]

/-- Witness for C2, the spec's own scenario: preferences `[zstd, gzip]` with
only the `gzip` sibling present — the served encoding is `gzip`. -/
theorem c2_serves_highest_existing_witness :
    bsNeg.pathFn "sha256:r" = Except.ok "/reg/ab/data"
    ∧ parseAccept reqZstdGzip.acceptRaw =
        [{ value := "zstd", q := 1 }] ++
          { value := "gzip", q := 0 } :: []
    ∧ (∀ c ∈ candList "/reg/ab/data" [{ value := "zstd", q := 1 }],
        bsNeg.driverStat c.1 = Except.error Err.pathNotFound)
    ∧ bsNeg.driverStat (join2 (dir (endPath "/reg/ab/data"
          [{ value := "zstd", q := 1 }])) ("data." ++ "gzip")) =
        Except.ok { size := 7 }
    ∧ bsNeg.newFileReader (join2 (dir (endPath "/reg/ab/data"
          [{ value := "zstd", q := 1 }])) ("data." ++ "gzip")) (7 : Int) =
        Except.ok ()
    ∧ (serveBlobContent bsNeg reqZstdGzip egH "sha256:r").1 = (true, none)
    ∧ (serveBlobContent bsNeg reqZstdGzip egH "sha256:r").2.1
        "Content-Encoding" = "gzip" := by
  refine ⟨rfl, by decide, ?_, rfl, rfl, ?_, ?_⟩
  · intro c hc
    fin_cases hc; rfl
  · exact ((c2_serves_highest_existing bsNeg reqZstdGzip egH "sha256:r"
      "/reg/ab/data" rfl).2 [{ value := "zstd", q := 1 }]
      { value := "gzip", q := 0 } [] { size := 7 } (by decide)
      (by intro c hc; fin_cases hc; rfl) rfl rfl).1
  · exact ((c2_serves_highest_existing bsNeg reqZstdGzip egH "sha256:r"
      "/reg/ab/data" rfl).2 [{ value := "zstd", q := 1 }]
      { value := "gzip", q := 0 } [] { size := 7 } (by decide)
      (by intro c hc; fin_cases hc; rfl) rfl rfl).2

/-! ### C9 — every successfully opened reader is closed before return -/

theorem negotiateLoop_count (bs : BlobServer) (dgst : Digest) (h : Headers)
    (p : String) :
    ∀ encs path,
      (negotiateLoop bs dgst h path encs).2.2.count
          (Event.fileReaderClose p) =
        (negotiateLoop bs dgst h path encs).2.2.count
          (Event.fileReaderOpenOk p) := by
  intro encs
  induction encs with
  | nil => intro path; simp [negotiateLoop]
  | cons enc rest ih =>
    intro path
    cases hstat : bs.driverStat (join2 (dir path) ("data." ++ enc.value)) with
    | error e =>
      by_cases he : e = Err.pathNotFound
      · simp [negotiateLoop, hstat, he, List.count_cons, ih]
      · simp [negotiateLoop, hstat, he]
    | ok st =>
      cases hopen : bs.newFileReader (join2 (dir path) ("data." ++ enc.value))
          st.size with
      | error e => simp [negotiateLoop, hstat, hopen, List.count_cons]
      | ok u =>
        by_cases hp2 : p = join2 (dir path) ("data." ++ enc.value)
        · simp [negotiateLoop, hstat, hopen, List.count_cons, hp2]
        · simp [negotiateLoop, hstat, hopen, List.count_cons, hp2]

theorem streamBlob_count (bs : BlobServer) (h : Headers) (desc : Descriptor)
    (path : String) (p : String) :
    (streamBlob bs h desc path).2.2.count (Event.fileReaderClose p) =
      (streamBlob bs h desc path).2.2.count (Event.fileReaderOpenOk p) := by
  cases hopen : bs.newFileReader path desc.size with
  | error e => simp [streamBlob, hopen, List.count_cons]
  | ok u =>
    by_cases hp2 : p = path
    · simp [streamBlob, hopen, List.count_cons, hp2]
    · simp [streamBlob, hopen, List.count_cons, hp2]

theorem serveBlobMain_count (bs : BlobServer) (r : Request) (h : Headers)
    (dgst : Digest) (p : String) :
    (serveBlobMain bs r h dgst).2.2.count (Event.fileReaderClose p) =
      (serveBlobMain bs r h dgst).2.2.count (Event.fileReaderOpenOk p) := by
  cases hstat : bs.statterStat dgst with
  | error e => simp [serveBlobMain, hstat]
  | ok desc =>
    cases hp2 : bs.pathFn desc.digest with
    | error e => simp [serveBlobMain, hstat, hp2]
    | ok path =>
      by_cases hr : bs.redirect
      · cases hurl : bs.driverURLFor path r.method with
        | ok url => simp [serveBlobMain, hstat, hp2, hr, hurl]
        | error e =>
          by_cases he : e = Err.unsupportedMethod
          · simp [serveBlobMain, hstat, hp2, hr, hurl, he, List.count_cons,
              streamBlob_count]
          · simp [serveBlobMain, hstat, hp2, hr, hurl, he]
      · simp [serveBlobMain, hstat, hp2, hr, List.count_cons,
          streamBlob_count]

theorem serveBlobContent_count (bs : BlobServer) (r : Request) (h0 : Headers)
    (dgst : Digest) (p : String) :
    (serveBlobContent bs r h0 dgst).2.2.count (Event.fileReaderClose p) =
      (serveBlobContent bs r h0 dgst).2.2.count (Event.fileReaderOpenOk p) := by
  cases hp : bs.pathFn dgst with
  | error e => simp [serveBlobContent, hp]
  | ok path =>
    simpa [serveBlobContent, hp] using
      negotiateLoop_count bs dgst h0 p (parseAccept r.acceptRaw) path

/-- C9: in every execution trace of `ServeBlob` and of `ServeBlobContent`,
for every path, the number of reader-close events equals the number of
successful reader-open events — a successfully opened range stream adapter
is always released before the serving function returns (the body writer
`http.ServeContent` has no failing control path; a write failure inside it
does not skip the deferred close). -/
theorem c9_reader_released (bs : BlobServer) (r : Request) (h0 : Headers)
    (dgst : Digest) (p : String) :
    ((serveBlob bs r h0 dgst).2.2.count (Event.fileReaderClose p) =
      (serveBlob bs r h0 dgst).2.2.count (Event.fileReaderOpenOk p))
    ∧ ((serveBlobContent bs r h0 dgst).2.2.count (Event.fileReaderClose p) =
        (serveBlobContent bs r h0 dgst).2.2.count
          (Event.fileReaderOpenOk p)) := by
  refine ⟨?_, serveBlobContent_count bs r h0 dgst p⟩
  by_cases hc : r.transportCompression = "enabled"
  · by_cases hb : ((serveBlobContent bs r h0 dgst).1.1 ||
        (serveBlobContent bs r h0 dgst).1.2.isSome) = true
    · simp only [serveBlob, hc, if_true, reduceIte, hb]
      exact serveBlobContent_count bs r h0 dgst p
    · simp only [serveBlob, hc, if_true, reduceIte, hb, Bool.false_eq_true,
        if_false]
      simp [List.count_append, serveBlobContent_count bs r h0 dgst p,
        serveBlobMain_count]
  · simp [serveBlob, hc, serveBlobMain_count]

/-- C3 counterexample: a `Content-Type` populated by an outer layer is
overwritten with `application/octet-stream` when `ServeBlob` completes
through a negotiated-variant match. -/
theorem c3_counterexample :
    egHCT "Content-Type" = "text/plain"
    ∧ (serveBlob bsNeg reqGzip egHCT "sha256:r").2.1 "Content-Type" =
        "application/octet-stream"
    ∧ ("text/plain" : String) ≠ "application/octet-stream" := by
  refine ⟨rfl, by decide, by decide⟩

/-! ### C10 — path algebra for the `Clean` embedding -/

theorem splitSlash_ne_nil : ∀ l : List Char, splitSlash l ≠ [] := by
  intro l
  induction l with
  | nil => simp [splitSlash]
  | cons x xs ih =>
    simp only [splitSlash]
    cases h : splitSlash xs with
    | nil => exact absurd h ih
    | cons y ys => split_ifs <;> simp

theorem splitSlash_noslash : ∀ l : List Char, ∀ c ∈ splitSlash l, '/' ∉ c := by
  intro l
  induction l with
  | nil => simp [splitSlash]
  | cons x xs ih =>
    intro c hc
    cases h : splitSlash xs with
    | nil => exact absurd h (splitSlash_ne_nil xs)
    | cons y ys =>
      simp only [splitSlash, h] at hc
      have hy : '/' ∉ y := ih y (by rw [h]; exact List.mem_cons_self y ys)
      have hys : ∀ z ∈ ys, '/' ∉ z := fun z hz =>
        ih z (by rw [h]; exact List.mem_cons.mpr (Or.inr hz))
      by_cases hx : x = '/'
      · rw [if_pos hx] at hc
        rcases List.mem_cons.mp hc with rfl | hc2
        · simp
        · rcases List.mem_cons.mp hc2 with rfl | hc3
          · exact hy
          · exact hys c hc3
      · rw [if_neg hx] at hc
        rcases List.mem_cons.mp hc with rfl | hc2
        · intro hmem
          rcases List.mem_cons.mp hmem with h1 | h1
          · exact hx h1.symm
          · exact hy h1
        · exact hys c hc2

theorem splitSlash_append (a b : List Char) :
    splitSlash (a ++ '/' :: b) = splitSlash a ++ splitSlash b := by
  induction a with
  | nil =>
    cases h : splitSlash b with
    | nil => exact absurd h (splitSlash_ne_nil b)
    | cons y ys => simp [splitSlash, h]
  | cons x a2 ih =>
    cases h : splitSlash a2 with
    | nil => exact absurd h (splitSlash_ne_nil a2)
    | cons y ys =>
      have h2 : splitSlash (a2 ++ '/' :: b) = y :: (ys ++ splitSlash b) := by
        rw [ih, h]
        rfl
      simp only [List.cons_append, splitSlash, List.append_eq]
      rw [h2, h]
      by_cases hx : x = '/' <;> simp [hx]

theorem splitSlash_single (b : List Char) (hb : '/' ∉ b) :
    splitSlash b = [b] := by
  induction b with
  | nil => simp [splitSlash]
  | cons x xs ih =>
    have hx : x ≠ '/' := fun e => hb (by rw [e]; exact List.mem_cons_self _ _)
    have hxs : '/' ∉ xs := fun e => hb (List.mem_cons.mpr (Or.inr e))
    simp [splitSlash, ih hxs, hx]

theorem interSlash_append_single (cs : List (List Char)) (f : List Char)
    (hcs : cs ≠ []) :
    interSlash (cs ++ [f]) = interSlash cs ++ '/' :: f := by
  induction cs with
  | nil => exact absurd rfl hcs
  | cons c cs2 ih =>
    cases cs2 with
    | nil => simp [interSlash]
    | cons c2 r =>
      show interSlash (c :: ((c2 :: r) ++ [f])) =
        interSlash (c :: c2 :: r) ++ '/' :: f
      have e1 : interSlash (c :: ((c2 :: r) ++ [f])) =
          c ++ '/' :: interSlash ((c2 :: r) ++ [f]) := rfl
      have e2 : interSlash (c :: c2 :: r) = c ++ '/' :: interSlash (c2 :: r) :=
        rfl
      rw [e1, e2, ih (by simp)]
      simp

theorem interSlash_ne_nil (cs : List (List Char)) (hne : cs ≠ [])
    (hcomp : ∀ c ∈ cs, c ≠ []) : interSlash cs ≠ [] := by
  cases cs with
  | nil => exact absurd rfl hne
  | cons c cs2 =>
    cases cs2 with
    | nil => exact hcomp c (List.mem_cons_self _ _)
    | cons c2 r =>
      simp only [interSlash]
      cases c with
      | nil => simp
      | cons x xs => simp

theorem interSlash_head (c : List Char) (cs : List (List Char)) (hc : c ≠ []) :
    (interSlash (c :: cs)).head? = c.head? := by
  cases cs with
  | nil => rfl
  | cons c2 r =>
    simp only [interSlash]
    cases c with
    | nil => exact absurd rfl hc
    | cons x xs => rfl

theorem splitSlash_interSlash (cs : List (List Char)) (hne : cs ≠ [])
    (hcomp : ∀ c ∈ cs, '/' ∉ c) :
    splitSlash (interSlash cs) = cs := by
  induction cs with
  | nil => exact absurd rfl hne
  | cons c cs2 ih =>
    cases cs2 with
    | nil =>
      simp only [interSlash]
      exact splitSlash_single c (hcomp c (List.mem_cons_self _ _))
    | cons c2 r =>
      have h1 : interSlash (c :: c2 :: r) = c ++ '/' :: interSlash (c2 :: r) :=
        rfl
      rw [h1, splitSlash_append,
        splitSlash_single c (hcomp c (List.mem_cons_self _ _)),
        ih (by simp) (fun x hx => hcomp x (List.mem_cons.mpr (Or.inr hx)))]
      rfl

theorem foldl_push_all (rooted : Bool) (cs : List (List Char)) :
    ∀ s, (∀ c ∈ cs, c ≠ [] ∧ c ≠ ['.'] ∧ c ≠ dd) →
      cs.foldl (cleanPush rooted) s = cs.reverse ++ s := by
  induction cs with
  | nil => intro s _; simp
  | cons c cs2 ih =>
    intro s hcs
    obtain ⟨h1, h2, h3⟩ := hcs c (List.mem_cons_self _ _)
    have hstep : cleanPush rooted s c = c :: s := by
      unfold cleanPush
      rw [if_neg (by simp [h1, h2]), if_neg h3]
    simp only [List.foldl_cons, hstep]
    rw [ih (c :: s) (fun x hx => hcs x (List.mem_cons.mpr (Or.inr hx)))]
    simp

theorem foldl_push_dds (cs : List (List Char)) :
    ∀ s, (∀ c ∈ cs, c = dd) → (∀ c ∈ s, c = dd) →
      cs.foldl (cleanPush false) s = cs.reverse ++ s := by
  induction cs with
  | nil => intro s _ _; simp
  | cons c cs2 ih =>
    intro s hcs hs
    have hc : c = dd := hcs c (List.mem_cons_self _ _)
    have hstep : cleanPush false s c = dd :: s := by
      subst hc
      cases s with
      | nil => simp [cleanPush, dd]
      | cons top rest =>
        have ht : top = dd := hs top (List.mem_cons_self _ _)
        subst ht
        simp [cleanPush, dd]
    simp only [List.foldl_cons, hstep]
    rw [ih (dd :: s) (fun x hx => hcs x (List.mem_cons.mpr (Or.inr hx)))
      (fun x hx => by
        rcases List.mem_cons.mp hx with rfl | hx2
        · rfl
        · exact hs x hx2)]
    subst hc
    simp

theorem StackInv_nil (rooted : Bool) : StackInv rooted [] :=
  ⟨by simp, [], [], rfl, by simp, by simp, fun _ => rfl⟩

theorem cleanPush_inv (rooted : Bool) (stack : List (List Char))
    (c : List Char) (hinv : StackInv rooted stack) (hc : '/' ∉ c) :
    StackInv rooted (cleanPush rooted stack c) := by
  obtain ⟨hcomp, front, back, hsb, hfr, hbk, hrt⟩ := hinv
  unfold cleanPush
  by_cases h1 : c = [] ∨ c = ['.']
  · rw [if_pos h1]
    exact ⟨hcomp, front, back, hsb, hfr, hbk, hrt⟩
  · rw [if_neg h1]
    by_cases h2 : c = dd
    · rw [if_pos h2]
      cases stack with
      | nil =>
        cases hro : rooted
        · simp only [hro, Bool.false_eq_true, if_false]
          refine ⟨by simp [dd], [], [dd], rfl, by simp, by simp, ?_⟩
          intro h
          exact absurd h Bool.false_ne_true
        · simp only [hro, if_true, reduceIte]
          exact StackInv_nil true
      | cons top rest =>
        show StackInv rooted (if top = dd then dd :: top :: rest else rest)
        by_cases h3 : top = dd
        · rw [if_pos h3]
          have hfront : front = [] := by
            cases front with
            | nil => rfl
            | cons fh ft =>
              exfalso
              simp only [List.cons_append, List.cons.injEq] at hsb
              apply hfr
              rw [← hsb.1, ← h3]
              exact List.mem_cons_self _ _
          have hback : top :: rest = back := by
            rw [hfront] at hsb
            simpa using hsb
          have hro : rooted = false := by
            cases hro2 : rooted
            · rfl
            · exfalso
              rw [hrt hro2] at hback
              cases hback
          refine ⟨?_, [], dd :: top :: rest, rfl, by simp, ?_, ?_⟩
          · intro x hx
            rcases List.mem_cons.mp hx with rfl | hx2
            · exact ⟨by simp [dd], by simp [dd], by simp [dd]⟩
            · exact hcomp x hx2
          · intro x hx
            rcases List.mem_cons.mp hx with rfl | hx2
            · rfl
            · exact hbk x (hback ▸ hx2)
          · intro h
            rw [hro] at h
            cases h
        · rw [if_neg h3]
          cases front with
          | nil =>
            exfalso
            apply h3
            apply hbk top
            rw [List.nil_append] at hsb
            rw [← hsb]
            exact List.mem_cons_self _ _
          | cons fh ft =>
            simp only [List.cons_append, List.cons.injEq] at hsb
            obtain ⟨h4, h5⟩ := hsb
            refine ⟨?_, ft, back, h5, ?_, hbk, hrt⟩
            · intro x hx
              exact hcomp x (List.mem_cons.mpr (Or.inr (h5 ▸ hx)))
            · intro hdd
              exact hfr (List.mem_cons.mpr (Or.inr hdd))
    · rw [if_neg h2]
      rcases not_or.mp h1 with ⟨h1a, h1b⟩
      refine ⟨?_, c :: front, back, by rw [hsb]; rfl, ?_, hbk, hrt⟩
      · intro x hx
        rcases List.mem_cons.mp hx with rfl | hx2
        · exact ⟨h1a, h1b, hc⟩
        · exact hcomp x hx2
      · intro hdd
        rcases List.mem_cons.mp hdd with h6 | h6
        · exact h2 h6.symm
        · exact hfr h6

theorem foldl_inv (rooted : Bool) (cs : List (List Char)) :
    ∀ s, StackInv rooted s → (∀ c ∈ cs, '/' ∉ c) →
      StackInv rooted (cs.foldl (cleanPush rooted) s) := by
  induction cs with
  | nil => intro s hs _; exact hs
  | cons c cs2 ih =>
    intro s hs hcs
    exact ih _ (cleanPush_inv rooted s c hs (hcs c (List.mem_cons_self _ _)))
      (fun x hx => hcs x (List.mem_cons.mpr (Or.inr hx)))

theorem render_ne_nil (rooted : Bool) (stack : List (List Char)) :
    render rooted stack ≠ [] := by
  unfold render
  by_cases hb : interSlash stack.reverse = [] <;> cases rooted <;> simp [hb]

theorem render_head_true (stack : List (List Char)) :
    (render true stack).head? = some '/' := by
  unfold render
  by_cases hb : interSlash stack.reverse = [] <;> simp [hb]

theorem render_head_false (stack : List (List Char))
    (hcomp : ∀ c ∈ stack, c ≠ [] ∧ '/' ∉ c) :
    (render false stack).head? ≠ some '/' := by
  unfold render
  simp only [Bool.false_eq_true, if_false]
  by_cases hb : interSlash stack.reverse = []
  · rw [if_pos hb]
    simp
  · rw [if_neg hb]
    cases hs : stack.reverse with
    | nil =>
      exact absurd (by rw [hs]; rfl) hb
    | cons c cs =>
      have hcm : c ∈ stack :=
        List.mem_reverse.mp (by rw [hs]; exact List.mem_cons_self c cs)
      rw [interSlash_head c cs (hcomp c hcm).1]
      cases c with
      | nil => simp
      | cons x xs =>
        have hx : x ≠ '/' := by
          intro e
          exact (hcomp _ hcm).2 (by rw [e]; exact List.mem_cons_self _ _)
        simp [hx]

theorem foldl_render (rooted : Bool) (stack : List (List Char))
    (hinv : StackInv rooted stack) :
    (splitSlash (render rooted stack)).foldl (cleanPush rooted) [] = stack := by
  by_cases hst : stack = []
  · subst hst
    cases rooted <;> decide
  · obtain ⟨hcomp, front, back, hsb, hfr, hbk, hrt⟩ := hinv
    have hrevne : stack.reverse ≠ [] := by simpa using hst
    have hcompne : ∀ c ∈ stack.reverse, c ≠ [] := fun c hc =>
      (hcomp c (List.mem_reverse.mp hc)).1
    have hcompns : ∀ c ∈ stack.reverse, '/' ∉ c := fun c hc =>
      (hcomp c (List.mem_reverse.mp hc)).2.2
    have hbody : interSlash stack.reverse ≠ [] :=
      interSlash_ne_nil _ hrevne hcompne
    have hsp : splitSlash (interSlash stack.reverse) = stack.reverse :=
      splitSlash_interSlash _ hrevne hcompns
    cases rooted with
    | true =>
      have hback : back = [] := hrt rfl
      have hnodd : ∀ c ∈ stack, c ≠ dd := by
        intro c hcm
        rw [hsb, hback, List.append_nil] at hcm
        intro e
        exact hfr (e ▸ hcm)
      have hrend : render true stack = '/' :: interSlash stack.reverse := by
        unfold render
        simp [hbody]
      rw [hrend]
      have he : splitSlash ('/' :: interSlash stack.reverse) =
          [] :: splitSlash (interSlash stack.reverse) := by
        have := splitSlash_append [] (interSlash stack.reverse)
        simpa [splitSlash] using this
      rw [he, hsp]
      have hstep : cleanPush true [] [] = [] := by simp [cleanPush]
      simp only [List.foldl_cons, hstep]
      rw [foldl_push_all true stack.reverse [] (fun c hc =>
        ⟨hcompne c hc, (hcomp c (List.mem_reverse.mp hc)).2.1,
          hnodd c (List.mem_reverse.mp hc)⟩)]
      simp
    | false =>
      have hrend : render false stack = interSlash stack.reverse := by
        unfold render
        simp [hbody]
      rw [hrend, hsp, hsb]
      have hrev : (front ++ back).reverse = back.reverse ++ front.reverse := by
        simp
      rw [hrev, List.foldl_append]
      rw [foldl_push_dds back.reverse []
        (fun c hc => hbk c (List.mem_reverse.mp hc)) (by simp)]
      simp only [List.append_nil, List.reverse_reverse]
      rw [foldl_push_all false front.reverse back (fun c hc => by
        have hcm : c ∈ stack := by
          rw [hsb]
          exact List.mem_append.mpr (Or.inl (List.mem_reverse.mp hc))
        exact ⟨(hcomp c hcm).1, (hcomp c hcm).2.1,
          fun e => hfr (e ▸ List.mem_reverse.mp hc)⟩)]
      simp

theorem cleanL_eq_render (l : List Char) :
    ∃ rooted stack, StackInv rooted stack ∧ cleanL l = render rooted stack := by
  by_cases hl : l = []
  · subst hl
    exact ⟨false, [], StackInv_nil false, by decide⟩
  · refine ⟨decide (l.head? = some '/'),
      (splitSlash l).foldl (cleanPush (decide (l.head? = some '/'))) [],
      foldl_inv _ _ [] (StackInv_nil _) (splitSlash_noslash l), ?_⟩
    unfold cleanL
    rw [if_neg hl]

theorem cleanL_render_slash (rooted : Bool) (stack : List (List Char))
    (hinv : StackInv rooted stack) :
    cleanL (render rooted stack ++ ['/']) = render rooted stack := by
  have hne : render rooted stack ++ ['/'] ≠ [] := by simp
  unfold cleanL
  rw [if_neg hne]
  have hhead : (render rooted stack ++ ['/']).head? =
      (render rooted stack).head? := by
    cases hr : render rooted stack with
    | nil => exact absurd hr (render_ne_nil rooted stack)
    | cons a as => rfl
  have hdet : decide ((render rooted stack ++ ['/']).head? = some '/') =
      rooted := by
    rw [hhead]
    cases rooted
    · simp [render_head_false stack
        (fun c hc => ⟨(hinv.1 c hc).1, (hinv.1 c hc).2.2⟩)]
    · simp [render_head_true stack]
  simp only [hdet]
  rw [splitSlash_append, List.foldl_append, foldl_render rooted stack hinv]
  have hrest : (splitSlash ([] : List Char)).foldl (cleanPush rooted) stack =
      stack := by
    simp [splitSlash, cleanPush]
  rw [hrest]

theorem cleanL_render_push (rooted : Bool) (stack : List (List Char))
    (f : List Char) (hinv : StackInv rooted stack) (hf1 : f ≠ [])
    (hf2 : f ≠ ['.']) (hf3 : f ≠ dd) (hf4 : '/' ∉ f) :
    cleanL (render rooted stack ++ '/' :: f) = render rooted (f :: stack) := by
  have hne : render rooted stack ++ '/' :: f ≠ [] := by simp
  unfold cleanL
  rw [if_neg hne]
  have hhead : (render rooted stack ++ '/' :: f).head? =
      (render rooted stack).head? := by
    cases hr : render rooted stack with
    | nil => exact absurd hr (render_ne_nil rooted stack)
    | cons a as => rfl
  have hdet : decide ((render rooted stack ++ '/' :: f).head? = some '/') =
      rooted := by
    rw [hhead]
    cases rooted
    · simp [render_head_false stack
        (fun c hc => ⟨(hinv.1 c hc).1, (hinv.1 c hc).2.2⟩)]
    · simp [render_head_true stack]
  simp only [hdet]
  rw [splitSlash_append, splitSlash_single f hf4, List.foldl_append,
    foldl_render rooted stack hinv]
  have hstep : ([f] : List (List Char)).foldl (cleanPush rooted) stack =
      f :: stack := by
    have : cleanPush rooted stack f = f :: stack := by
      unfold cleanPush
      rw [if_neg (by simp [hf1, hf2]), if_neg hf3]
    simp [this]
  rw [hstep]

theorem dropWhile_all (p : Char → Bool) (xs ys : List Char)
    (h : ∀ x ∈ xs, p x = true) :
    (xs ++ ys).dropWhile p = ys.dropWhile p := by
  induction xs with
  | nil => simp
  | cons x xs2 ih =>
    simp only [List.cons_append, List.dropWhile_cons,
      h x (List.mem_cons_self _ _)]
    exact ih (fun z hz => h z (List.mem_cons.mpr (Or.inr hz)))

theorem dropLastComponent_append (a f : List Char) (hf : '/' ∉ f) :
    dropLastComponent (a ++ '/' :: f) = a ++ ['/'] := by
  unfold dropLastComponent
  rw [List.reverse_append]
  have h1 : ('/' :: f).reverse = f.reverse ++ ['/'] := by simp
  rw [h1, List.append_assoc]
  rw [dropWhile_all (fun c => decide (c ≠ '/')) f.reverse (['/'] ++ a.reverse)
    (fun x hx => decide_eq_true
      (fun e : x = '/' => hf (e ▸ List.mem_reverse.mp hx)))]
  have h2 : ((['/'] ++ a.reverse) : List Char).dropWhile
      (fun c => c ≠ '/') = '/' :: a.reverse := by
    simp [List.dropWhile_cons]
  rw [h2]
  simp

theorem dropLastComponent_noslash (f : List Char) (hf : '/' ∉ f) :
    dropLastComponent f = [] := by
  unfold dropLastComponent
  have h0 : f.reverse = f.reverse ++ [] := by simp
  rw [h0, dropWhile_all (fun c => decide (c ≠ '/')) f.reverse []
    (fun x hx => decide_eq_true
      (fun e : x = '/' => hf (e ▸ List.mem_reverse.mp hx)))]
  simp

theorem dirL_render_push (rooted : Bool) (stack : List (List Char))
    (f : List Char) (hinv : StackInv rooted stack) (hf1 : f ≠ [])
    (hf4 : '/' ∉ f) :
    dirL (render rooted (f :: stack)) = render rooted stack := by
  by_cases hst : stack = []
  · subst hst
    cases rooted
    · have h1 : render false [f] = f := by
        unfold render
        simp [interSlash, hf1]
      rw [h1]
      unfold dirL
      rw [dropLastComponent_noslash f hf4]
      decide
    · have h1 : render true [f] = '/' :: f := by
        unfold render
        simp [interSlash, hf1]
      rw [h1]
      unfold dirL
      have h2 : dropLastComponent ('/' :: f) = ['/'] := by
        have := dropLastComponent_append [] f hf4
        simpa using this
      rw [h2]
      decide
  · have hinv2 := hinv
    obtain ⟨hcomp, front, back, hsb, hfr, hbk, hrt⟩ := hinv2
    have hrevne : stack.reverse ≠ [] := by simpa using hst
    have hbody : interSlash stack.reverse ≠ [] :=
      interSlash_ne_nil _ hrevne
        (fun c hc => (hcomp c (List.mem_reverse.mp hc)).1)
    have hrend : render rooted (f :: stack) =
        render rooted stack ++ '/' :: f := by
      unfold render
      have hrev : (f :: stack).reverse = stack.reverse ++ [f] := by simp
      rw [hrev, interSlash_append_single _ f hrevne]
      have hb2 : interSlash stack.reverse ++ '/' :: f ≠ [] := by simp
      cases rooted <;> simp [hbody, hb2]
    rw [hrend]
    unfold dirL
    rw [dropLastComponent_append _ f hf4]
    exact cleanL_render_slash rooted stack hinv

/-- Taking `Dir` of `Join(Dir path, f)` recovers `Dir path`, for any
single-component (slash-free) filename `f` other than `.` and `..`. -/
theorem dir_join2 (path fs : String) (h1 : fs.data ≠ [])
    (h2 : fs.data ≠ ['.']) (h3 : fs.data ≠ dd) (h4 : '/' ∉ fs.data) :
    dir (join2 (dir path) fs) = dir path := by
  obtain ⟨rooted, stack, hinv, hren⟩ :=
    cleanL_eq_render (dropLastComponent path.data)
  have hdir : dir path = ⟨render rooted stack⟩ := by
    unfold dir dirL
    rw [hren]
  have hdirne : dir path ≠ "" := by
    rw [hdir]
    intro hcon
    exact render_ne_nil rooted stack (congrArg String.data hcon)
  unfold join2
  rw [if_neg hdirne]
  have hdata : (dir path ++ "/" ++ fs).data =
      render rooted stack ++ '/' :: fs.data := by
    rw [String.data_append, String.data_append, hdir]
    simp
  have hclean : clean (dir path ++ "/" ++ fs) =
      ⟨render rooted (fs.data :: stack)⟩ := by
    unfold clean
    rw [hdata, cleanL_render_push rooted stack fs.data hinv h1 h2 h3 h4]
  rw [hclean, hdir]
  show String.mk (dirL (render rooted (fs.data :: stack))) = _
  rw [dirL_render_push rooted stack fs.data hinv h1 h4]

/-- With slash-free tokens, the loop's candidate paths are exactly the
sibling paths of the canonical path: the reassignment does not compound. -/
theorem candList_eq (encs : List AcceptSpec) :
    ∀ path, (∀ enc ∈ encs, '/' ∉ enc.value.data) →
      candList path encs =
        encs.map (fun enc => (join2 (dir path) ("data." ++ enc.value), enc)) := by
  induction encs with
  | nil => intro path _; simp [candList]
  | cons enc rest ih =>
    intro path htok
    have hv : '/' ∉ enc.value.data := htok enc (List.mem_cons_self _ _)
    have he : ("data." ++ enc.value).data =
        'd' :: 'a' :: 't' :: 'a' :: '.' :: enc.value.data := by
      rw [String.data_append]
      rfl
    have h1 : ("data." ++ enc.value).data ≠ [] := by rw [he]; simp
    have h2 : ("data." ++ enc.value).data ≠ ['.'] := by rw [he]; simp
    have h3 : ("data." ++ enc.value).data ≠ dd := by rw [he]; simp [dd]
    have h4 : '/' ∉ ("data." ++ enc.value).data := by
      rw [he]
      intro hmem
      simp only [List.mem_cons] at hmem
      rcases hmem with h | h | h | h | h | h
      · cases h
      · cases h
      · cases h
      · cases h
      · cases h
      · exact hv h
    have hdd : dir (join2 (dir path) ("data." ++ enc.value)) = dir path :=
      dir_join2 path ("data." ++ enc.value) h1 h2 h3 h4
    simp only [candList, List.map_cons]
    rw [ih (join2 (dir path) ("data." ++ enc.value))
      (fun x hx => htok x (List.mem_cons.mpr (Or.inr hx))), hdd]

/-- Every path stat'd by the negotiation loop is one of its candidate
paths. -/
theorem negotiateLoop_stats (bs : BlobServer) (dgst : Digest) (h : Headers) :
    ∀ encs path p,
      Event.driverStat p ∈ (negotiateLoop bs dgst h path encs).2.2 →
      ∃ c ∈ candList path encs, p = c.1 := by
  intro encs
  induction encs with
  | nil => intro path p hp; simp [negotiateLoop] at hp
  | cons enc rest ih =>
    intro path p hp
    cases hstat : bs.driverStat (join2 (dir path) ("data." ++ enc.value)) with
    | error e =>
      by_cases he : e = Err.pathNotFound
      · simp only [negotiateLoop, hstat, he, reduceIte, List.mem_cons] at hp
        rcases hp with h1 | h1
        · refine ⟨(join2 (dir path) ("data." ++ enc.value), enc),
            by simp [candList], ?_⟩
          simpa using h1
        · obtain ⟨c, hc1, hc2⟩ :=
            ih (join2 (dir path) ("data." ++ enc.value)) p h1
          exact ⟨c, by simp only [candList, List.mem_cons]; exact Or.inr hc1,
            hc2⟩
      · simp only [negotiateLoop, hstat, if_neg he, List.mem_cons,
          List.not_mem_nil, or_false] at hp
        refine ⟨(join2 (dir path) ("data." ++ enc.value), enc),
          by simp [candList], ?_⟩
        simpa using hp
    | ok st =>
      cases hopen : bs.newFileReader (join2 (dir path) ("data." ++ enc.value))
          st.size with
      | error e =>
        simp only [negotiateLoop, hstat, hopen] at hp
        simp only [List.mem_cons, List.not_mem_nil, or_false] at hp
        rcases hp with h1 | h1
        · refine ⟨(join2 (dir path) ("data." ++ enc.value), enc),
            by simp [candList], ?_⟩
          simpa using h1
        · exact absurd h1 (by simp)
      | ok u =>
        simp only [negotiateLoop, hstat, hopen] at hp
        simp only [List.mem_cons, List.not_mem_nil, or_false] at hp
        rcases hp with h1 | h1 | h1 | h1
        · refine ⟨(join2 (dir path) ("data." ++ enc.value), enc),
            by simp [candList], ?_⟩
          simpa using h1
        · exact absurd h1 (by simp)
        · exact absurd h1 (by simp)
        · exact absurd h1 (by simp)

/-- C10 (amended): when every parsed encoding token is slash-free, the
candidate sibling path of every iteration equals
`Join(Dir(canonicalPath), "data."+token)` — the in-loop reassignment does
not compound, because `Dir` of a previous candidate is again the canonical
containing directory — and consequently every path `ServeBlobContent` stats
is such a sibling path. -/
theorem c10_candidate_paths (bs : BlobServer) (r : Request) (h0 : Headers)
    (dgst : Digest) (path : String)
    (hp : bs.pathFn dgst = Except.ok path)
    (htok : ∀ enc ∈ parseAccept r.acceptRaw, '/' ∉ enc.value.data) :
    candList path (parseAccept r.acceptRaw) =
      (parseAccept r.acceptRaw).map
        (fun enc => (join2 (dir path) ("data." ++ enc.value), enc))
    ∧ (∀ p2, Event.driverStat p2 ∈ (serveBlobContent bs r h0 dgst).2.2 →
        ∃ enc ∈ parseAccept r.acceptRaw,
          p2 = join2 (dir path) ("data." ++ enc.value)) := by
  have hc := candList_eq (parseAccept r.acceptRaw) path htok
  refine ⟨hc, ?_⟩
  intro p2 hmem
  simp only [serveBlobContent, hp] at hmem
  obtain ⟨c, hc1, hc2⟩ :=
    negotiateLoop_stats bs dgst h0 (parseAccept r.acceptRaw) path p2 hmem
  rw [hc] at hc1
  obtain ⟨enc, henc, heq⟩ := List.mem_map.mp hc1
  refine ⟨enc, henc, ?_⟩
  rw [hc2, ← heq]

/-- Witness for C10 (amended) at slash-free tokens `zstd`, `gzip`: the
candidates are the true sibling paths. -/
theorem c10_candidate_paths_witness :
    bsNeg.pathFn "sha256:r" = Except.ok "/reg/ab/data"
    ∧ (∀ enc ∈ parseAccept reqZstdGzip.acceptRaw, '/' ∉ enc.value.data)
    ∧ candList "/reg/ab/data" (parseAccept reqZstdGzip.acceptRaw) =
        (parseAccept reqZstdGzip.acceptRaw).map
          (fun enc => (join2 (dir "/reg/ab/data") ("data." ++ enc.value),
            enc)) := by
  refine ⟨rfl, by decide, ?_⟩
  exact (c10_candidate_paths bsNeg reqZstdGzip egH "sha256:r" "/reg/ab/data"
    rfl (by decide)).1
